import Mathlib

/-!
The class S21Matrix: a shallow embedding of `src/Matrix+/s21_matrix.cpp`

The class `S21Matrix` (fields `rows_`, `cols_`, `matrix_`) is embedded as a structure,
its member functions as functions returning `Except Error _`.

* `double` arithmetic is modelled exactly: the entries live in a ring `α` (a field for
  `InverseMatrix`, which divides). `EqMatrix`, which compares, has entries in
  `Double α`: the numbers of an ordered field, the two infinities and NaN.
* `int` values are `Int`; loop counters, which start at `0` and only grow, are `Nat`.
  No `int` computation of the embedded functions overflows on a matrix that fits in
  memory.
* a C++ exception is an `Except.error` carrying the error kind of the throw site;
  an unchecked `std::vector::operator[]` outside the storage (undefined behaviour in
  C++) is the separate error `Error.OutOfBounds`.
* a member function that assigns to `*this` returns the new value of `*this`; the
  mutators `SetRows`, `SetCols`, `SetDimensions`, `SetElement`, `SumMatrix` and
  `SubMatrix` return an `Outcome`, which also keeps the value of `*this` at a throw.
-/

/-- Error kinds. Each constructor names the throw sites it stands for. -/
inductive Error where
  /-- Thrown as `std::invalid_argument("Matrix dimensions must be greater than 0.")`. -/
  | InvalidDimension
  /-- Thrown as `std::out_of_range(...)` by `getElement`, `SetElement`, `operator()`. -/
  | IndexOutOfRange
  /-- Thrown as `std::invalid_argument("Matrices dimensions are not equal.")`. -/
  | DimensionMismatch
  /-- Thrown as `std::invalid_argument("Matrix dimensions are not comparable.")`. -/
  | IncompatibleDimensions
  /-- Thrown as `std::invalid_argument("Matrix must be square to calculate ...")`. -/
  | NotSquare
  /-- Thrown as `std::runtime_error("Matrix is singular and cannot be inverted.")`. -/
  | SingularMatrix
  /-- An unchecked `operator[]` of `std::vector` outside the storage. -/
  | OutOfBounds
  /-- The budget of nested calls of `determinantFuel` is used up (this never shows, see
  `determinantRecursive_eq` and `determinantRecursive_ne_outOfFuel`). -/
  | OutOfFuel
  deriving DecidableEq

/-- The loop `for (int i = 0; i < n; ++i) body`, threading the state the body updates;
an error in the body leaves the loop. -/
def forLoop {σ : Type} (n : Int) (body : Nat → σ → Except Error σ) (init : σ) :
    Except Error σ :=
  (List.range n.toNat).foldlM (fun s i => body i s) init

/-- The read `v[i][j]` of a `std::vector<std::vector<double>>`. -/
def vecGet {α : Type} (v : List (List α)) (i j : Nat) : Except Error α :=
  match v[i]? with
  | none => .error .OutOfBounds
  | some row =>
    match row[j]? with
    | none => .error .OutOfBounds
    | some x => .ok x

/-- The write `v[i][j] = x` of a `std::vector<std::vector<double>>`. -/
def vecSet {α : Type} (v : List (List α)) (i j : Nat) (x : α) :
    Except Error (List (List α)) :=
  match v[i]? with
  | none => .error .OutOfBounds
  | some row => if j < row.length then .ok (v.set i (row.set j x)) else .error .OutOfBounds

/-- The call `std::copy(src.begin(), src.begin() + count, dst.begin())`: the new value
of `dst`. Both ranges have to lie inside their vectors. -/
def stdCopy {α : Type} (src : List α) (count : Int) (dst : List α) :
    Except Error (List α) :=
  if 0 ≤ count ∧ count.toNat ≤ src.length ∧ count.toNat ≤ dst.length then
    .ok (src.take count.toNat ++ dst.drop count.toNat)
  else .error .OutOfBounds

/-- The statement
`std::copy(matrix_[i].begin(), matrix_[i].begin() + count, tmp.matrix_[i].begin())`:
the new value of `tmp.matrix_`. -/
def copyRow {α : Type} (matrix_ : List (List α)) (count : Int) (i : Nat)
    (tmp : List (List α)) : Except Error (List (List α)) :=
  match matrix_[i]?, tmp[i]? with
  | some src, some dst =>
    match stdCopy src count dst with
    | .ok row => .ok (tmp.set i row)
    | .error e => .error e
  | _, _ => .error .OutOfBounds

/-- The values of a `double` as a comparison tells them apart: a number (the arithmetic
on numbers is exact), an infinity, or NaN. -/
inductive Double (α : Type) where
  | num (x : α)
  | posInf
  | negInf
  | nan
  deriving DecidableEq

instance {α : Type} [Zero α] : Zero (Double α) := ⟨.num 0⟩

/-- The difference `x - y` of two `double` values. -/
def Double.sub {α : Type} [Sub α] : Double α → Double α → Double α
  | .num x, .num y => .num (x - y)
  | .num _, .posInf => .negInf
  | .num _, .negInf => .posInf
  | .posInf, .num _ => .posInf
  | .posInf, .negInf => .posInf
  | .posInf, .posInf => .nan
  | .negInf, .num _ => .negInf
  | .negInf, .posInf => .negInf
  | .negInf, .negInf => .nan
  | .nan, _ => .nan
  | .num _, .nan => .nan
  | .posInf, .nan => .nan
  | .negInf, .nan => .nan

/-- The class `S21Matrix`. -/
structure S21Matrix (α : Type) where
  rows_ : Int
  cols_ : Int
  matrix_ : List (List α)
  deriving DecidableEq

/-- What a call of a member that assigns to `*this` leaves behind: the value of `*this`
at the normal return, or the exception together with the value of `*this` at the
throw. -/
inductive Outcome (α : Type) where
  | returned (self : S21Matrix α)
  | threw (e : Error) (self : S21Matrix α)

/-- The matrix an `Outcome` leaves in `*this`, after a return or after a throw. -/
def Outcome.left {α : Type} (o : Outcome α) : S21Matrix α :=
  match o with
  | .returned s => s
  | .threw _ s => s

namespace S21Matrix

variable {α : Type}

/-- The default constructor `S21Matrix::S21Matrix()`. -/
def empty : S21Matrix α := ⟨0, 0, []⟩

/-- The constructor `S21Matrix::S21Matrix(int rows, int cols)`. -/
def create [Zero α] (rows cols : Int) : Except Error (S21Matrix α) :=
  if rows < 1 ∨ cols < 1 then .error .InvalidDimension
  else .ok ⟨rows, cols, List.replicate rows.toNat (List.replicate cols.toNat 0)⟩

/-- The copy constructor `S21Matrix::S21Matrix(const S21Matrix& other)`: the new
object. -/
def copyConstruct (other : S21Matrix α) : S21Matrix α :=
  ⟨other.rows_, other.cols_, other.matrix_⟩

/-- The move constructor `S21Matrix::S21Matrix(S21Matrix&& other)`: the new object and
what is left of `other` (its counts are set to `0`, its vector was moved from and is
empty). -/
def moveConstruct (other : S21Matrix α) : S21Matrix α × S21Matrix α :=
  (⟨other.rows_, other.cols_, other.matrix_⟩, ⟨0, 0, []⟩)

/-- The copy assignment `S21Matrix::operator=(const S21Matrix& other)` from another
object: the new value of `*this`. (Assigning an object to itself changes nothing.) -/
def copyAssign (_self other : S21Matrix α) : S21Matrix α :=
  ⟨other.rows_, other.cols_, other.matrix_⟩

/-- The move assignment `S21Matrix::operator=(S21Matrix&& other)` from another object:
the new value of `*this` and what is left of `other` (its counts are set to `0`; the
vector that was moved from is empty, as the standard libraries leave it). (Assigning an
object to itself changes nothing.) -/
def moveAssign (_self other : S21Matrix α) : S21Matrix α × S21Matrix α :=
  (⟨other.rows_, other.cols_, other.matrix_⟩, ⟨0, 0, []⟩)

/-- The private helper `S21Matrix::minor(int row, int col)`. The outer loop carries
`(result.matrix_, m)`, the inner loop `(result.matrix_, n)`. -/
def minor [Zero α] (a : S21Matrix α) (row col : Int) : Except Error (S21Matrix α) := do
  let result ← create (a.rows_ - 1) (a.cols_ - 1)
  let st ← forLoop a.rows_ (fun i (st : List (List α) × Nat) =>
    if (i : Int) = row then pure st
    else do
      let st2 ← forLoop a.cols_ (fun j (st2 : List (List α) × Nat) =>
        if (j : Int) = col then pure st2
        else do
          let x ← vecGet a.matrix_ i j
          let r ← vecSet st2.1 st.2 st2.2 x
          pure (r, st2.2 + 1)) (st.1, 0)
      pure (st2.1, st.2 + 1)) (result.matrix_, 0)
  pure { result with matrix_ := st.1 }

/-- The body of `S21Matrix::determinantRecursive`, with the recursive call abstracted
as `self`. -/
def determinantStep [Ring α] (self : S21Matrix α → Except Error α) (other : S21Matrix α) :
    Except Error α :=
  if other.rows_ = 1 then vecGet other.matrix_ 0 0
  else if other.rows_ = 2 then do
    let a00 ← vecGet other.matrix_ 0 0
    let a11 ← vecGet other.matrix_ 1 1
    let a01 ← vecGet other.matrix_ 0 1
    let a10 ← vecGet other.matrix_ 1 0
    pure (a00 * a11 - a01 * a10)
  else
    forLoop other.cols_ (fun i det => do
      let submatrix ← other.minor 0 i
      let x ← vecGet other.matrix_ 0 i
      let d ← self submatrix
      pure (det + (if i % 2 = 0 then (1 : α) else -1) * x * d)) 0

/-- The recursion of `S21Matrix::determinantRecursive`, bounded by a budget of nested
calls. -/
def determinantFuel [Ring α] : Nat → S21Matrix α → Except Error α
  | 0, other => determinantStep (fun _ => .error .OutOfFuel) other
  | fuel + 1, other => determinantStep (determinantFuel fuel) other

/-- The private helper `S21Matrix::determinantRecursive(const S21Matrix& other)`. Every
nested call is on a minor, which has one row less, so the row count is budget enough
(`determinantRecursive_eq` is the unfolding equation of the C++ function). -/
def determinantRecursive [Ring α] (other : S21Matrix α) : Except Error α :=
  determinantFuel other.rows_.toNat other

/-- The member `S21Matrix::Determinant()`. -/
def Determinant [Ring α] (a : S21Matrix α) : Except Error α :=
  if a.rows_ ≠ a.cols_ then .error .NotSquare
  else determinantRecursive a

/-- The member `S21Matrix::MulNumber(const double num)`; returns the new `*this`. -/
def MulNumber [Ring α] (a : S21Matrix α) (num : α) : Except Error (S21Matrix α) := do
  let m ← forLoop a.rows_ (fun i m =>
    forLoop a.cols_ (fun j m => do
      let x ← vecGet m i j
      vecSet m i j (x * num)) m) a.matrix_
  pure { a with matrix_ := m }

/-- The member `S21Matrix::MulMatrix(const S21Matrix& other)`; returns the new `*this`
(the move assignment of `result`). -/
def MulMatrix [Ring α] (a other : S21Matrix α) : Except Error (S21Matrix α) := do
  if a.cols_ ≠ other.rows_ then throw Error.IncompatibleDimensions
  let result ← create a.rows_ other.cols_
  let m ← forLoop a.rows_ (fun i m =>
    forLoop other.cols_ (fun j m =>
      forLoop a.cols_ (fun k m => do
        let r ← vecGet m i j
        let x ← vecGet a.matrix_ i k
        let y ← vecGet other.matrix_ k j
        vecSet m i j (r + x * y)) m) m) result.matrix_
  pure { result with matrix_ := m }

/-- The member `S21Matrix::Transpose()`. -/
def Transpose [Zero α] (a : S21Matrix α) : Except Error (S21Matrix α) := do
  let result ← create a.cols_ a.rows_
  let m ← forLoop a.rows_ (fun i m =>
    forLoop a.cols_ (fun j m => do
      let x ← vecGet a.matrix_ i j
      vecSet m j i x) m) result.matrix_
  pure { result with matrix_ := m }

/-- The member `S21Matrix::CalcComplements()`. -/
def CalcComplements [Ring α] (a : S21Matrix α) : Except Error (S21Matrix α) := do
  if a.rows_ ≠ a.cols_ then throw Error.NotSquare
  let result ← create a.rows_ a.cols_
  let m ← forLoop a.rows_ (fun i m =>
    forLoop a.cols_ (fun j m => do
      let submatrix ← a.minor i j
      let sub_det ← determinantRecursive submatrix
      vecSet m i j ((if (i + j) % 2 = 0 then (1 : α) else -1) * sub_det)) m) result.matrix_
  pure { result with matrix_ := m }

/-- The member `S21Matrix::InverseMatrix()`. -/
def InverseMatrix [Field α] [DecidableEq α] (a : S21Matrix α) :
    Except Error (S21Matrix α) := do
  let det ← a.Determinant
  if det = 0 then throw Error.SingularMatrix
  let complements ← a.CalcComplements
  let transposed ← complements.Transpose
  transposed.MulNumber (1 / det)

/-- The accessor `S21Matrix::getElement(int row, int col) const`. -/
def getElement (a : S21Matrix α) (row col : Int) : Except Error α :=
  if row < 0 ∨ row ≥ a.rows_ ∨ col < 0 ∨ col ≥ a.cols_ then .error .IndexOutOfRange
  else vecGet a.matrix_ row.toNat col.toNat

/-- The operator `double& S21Matrix::operator()(int i, int j)`: the value of the cell the
returned reference names. -/
def operatorCall (a : S21Matrix α) (i j : Int) : Except Error α :=
  if i < 0 ∨ i ≥ a.rows_ ∨ j < 0 ∨ j ≥ a.cols_ then .error .IndexOutOfRange
  else vecGet a.matrix_ i.toNat j.toNat

/-- The operator `const double& S21Matrix::operator()(int i, int j) const`: the value of
the cell the returned reference names. -/
def operatorCallConst (a : S21Matrix α) (i j : Int) : Except Error α :=
  if i < 0 ∨ i ≥ a.rows_ ∨ j < 0 ∨ j ≥ a.cols_ then .error .IndexOutOfRange
  else vecGet a.matrix_ i.toNat j.toNat

/-- The mutator `S21Matrix::SetElement(int row, int col, double value)`. -/
def SetElement (a : S21Matrix α) (row col : Int) (value : α) : Outcome α :=
  if row < 0 ∨ row ≥ a.rows_ ∨ col < 0 ∨ col ≥ a.cols_ then .threw .IndexOutOfRange a
  else
    match vecSet a.matrix_ row.toNat col.toNat value with
    | .error e => .threw e a
    | .ok m => .returned { a with matrix_ := m }

/-- The mutator `S21Matrix::SetRows(int rows)`. The members are assigned after the last
statement that can throw. -/
def SetRows [Zero α] (a : S21Matrix α) (rows : Int) : Outcome α :=
  if rows ≤ 0 then .threw .InvalidDimension a
  else if rows ≠ a.rows_ then
    match (do
      let tmp ← create rows a.cols_
      forLoop (min a.rows_ rows) (copyRow a.matrix_ a.cols_) tmp.matrix_) with
    | .error e => .threw e a
    | .ok m => .returned { a with matrix_ := m, rows_ := rows }
  else .returned a

/-- The mutator `S21Matrix::SetCols(int cols)`. The members are assigned after the last
statement that can throw. -/
def SetCols [Zero α] (a : S21Matrix α) (cols : Int) : Outcome α :=
  if cols < 0 then .threw .InvalidDimension a
  else if cols ≠ a.cols_ then
    match (do
      let tmp ← create a.rows_ cols
      forLoop a.rows_ (copyRow a.matrix_ (min a.cols_ cols)) tmp.matrix_) with
    | .error e => .threw e a
    | .ok m => .returned { a with matrix_ := m, cols_ := cols }
  else .returned a

/-- The mutator `S21Matrix::SetDimensions(int rows, int cols)`: `SetRows(rows)`, then
`SetCols(cols)` on what `SetRows` left. -/
def SetDimensions [Zero α] (a : S21Matrix α) (rows cols : Int) : Outcome α :=
  match a.SetRows rows with
  | .threw e self => .threw e self
  | .returned self => self.SetCols cols

/-- The member `S21Matrix::SumMatrix(const S21Matrix& other)`. An access outside the
storage (undefined behaviour) is reported with the value `*this` had at the call. -/
def SumMatrix [Ring α] (a other : S21Matrix α) : Outcome α :=
  if a.rows_ ≠ other.rows_ ∨ a.cols_ ≠ other.cols_ then .threw .DimensionMismatch a
  else
    match forLoop a.rows_ (fun i m =>
      forLoop a.cols_ (fun j m => do
        let x ← vecGet m i j
        let y ← vecGet other.matrix_ i j
        vecSet m i j (x + y)) m) a.matrix_ with
    | .error e => .threw e a
    | .ok m => .returned { a with matrix_ := m }

/-- The member `S21Matrix::SubMatrix(const S21Matrix& other)`. An access outside the
storage (undefined behaviour) is reported with the value `*this` had at the call. -/
def SubMatrix [Ring α] (a other : S21Matrix α) : Outcome α :=
  if a.rows_ ≠ other.rows_ ∨ a.cols_ ≠ other.cols_ then .threw .DimensionMismatch a
  else
    match forLoop a.rows_ (fun i m =>
      forLoop a.cols_ (fun j m => do
        let x ← vecGet m i j
        let y ← vecGet other.matrix_ i j
        vecSet m i j (x - y)) m) a.matrix_ with
    | .error e => .threw e a
    | .ok m => .returned { a with matrix_ := m }

end S21Matrix

/-! ## Specification-side vocabulary -/

/-- The storage `v` is rectangular: `r` rows, each of length `c`. -/
def Shape {α : Type} (v : List (List α)) (r c : Nat) : Prop :=
  v.length = r ∧ ∀ row ∈ v, row.length = c

/-- The entry `v[i][j]` as a total function (`0` outside the storage). -/
def entry {α : Type} [Zero α] (v : List (List α)) (i j : Nat) : α :=
  (v.getD i []).getD j 0

/-- The index in the original of the `p`-th index that survives deleting index `r`. -/
def skip (r p : Nat) : Nat := if p < r then p else p + 1

namespace S21Matrix

variable {α : Type}

/-- The representation invariant of the class: the counts are not negative and the
storage is exactly `rows_` rows of `cols_` entries. -/
def WF (a : S21Matrix α) : Prop :=
  0 ≤ a.rows_ ∧ 0 ≤ a.cols_ ∧ Shape a.matrix_ a.rows_.toNat a.cols_.toNat

/-- The entry `a[i][j]` of a matrix. -/
def cell [Zero α] (a : S21Matrix α) (i j : Nat) : α := entry a.matrix_ i j

/-- The matrix `a` with row `row` and column `col` deleted, the other entries in their
order. -/
def deleteRowCol (a : S21Matrix α) (row col : Nat) : S21Matrix α :=
  ⟨a.rows_ - 1, a.cols_ - 1, (a.matrix_.eraseIdx row).map (fun r => r.eraseIdx col)⟩

/-- The value `determinantRecursive` returns (`0` if it fails). -/
def detValue [Ring α] (a : S21Matrix α) : α :=
  match determinantRecursive a with
  | .ok d => d
  | .error _ => 0

/-- The entry `(i, j)` of the product, accumulated from `0` in the order
`k = 0, 1, ..., p - 1`. -/
def dot [Ring α] (a b : S21Matrix α) (p i j : Nat) : α :=
  (List.range p).foldl (fun acc k => acc + a.cell i k * b.cell k j) 0

/-- The matrix `[[1,2],[3,4]]` of the tests `Determinant2x2` and `MulMatrix`. -/
def test2x2 : S21Matrix ℤ := ⟨2, 2, [[1, 2], [3, 4]]⟩

/-- The matrix `[[6,1,1],[4,-2,5],[2,8,7]]` of the test `Determinant3x3`. -/
def test3x3 : S21Matrix ℤ := ⟨3, 3, [[6, 1, 1], [4, -2, 5], [2, 8, 7]]⟩

/-- The right operand `[[2,0],[1,2]]` of the test `MulMatrix`. -/
def testRight : S21Matrix ℤ := ⟨2, 2, [[2, 0], [1, 2]]⟩

/-- The matrix `[[4,7],[2,6]]` of the test `InverseMatrix`. -/
def testInv : S21Matrix ℚ := ⟨2, 2, [[4, 7], [2, 6]]⟩

/-- The invertible `1 × 1` matrix `[[5]]`. -/
def oneByOne : S21Matrix ℚ := ⟨1, 1, [[5]]⟩

/-- A `1 × 2` matrix. -/
def oneByTwo : S21Matrix ℚ := ⟨1, 2, [[1, 2]]⟩

/-- The matrix of the resize scenario: `2 × 2` with `(0,0) = 1` and `(1,1) = 4`. -/
def testResize : S21Matrix ℤ := ⟨2, 2, [[1, 0], [0, 4]]⟩

/-- The matrix `[[1,2,3],[4,5,6]]` of the test `Transpose`. -/
def test2x3 : S21Matrix ℤ := ⟨2, 3, [[1, 2, 3], [4, 5, 6]]⟩

/-- The left operand `[[1,2],[0,0]]` of the test `SumMatrix`. -/
def testSumLeft : S21Matrix ℤ := ⟨2, 2, [[1, 2], [0, 0]]⟩

/-- The right operand `[[3,4],[0,0]]` of the tests `SumMatrix` and `SubMatrix`. -/
def testSumRight : S21Matrix ℤ := ⟨2, 2, [[3, 4], [0, 0]]⟩

/-- The representation invariant of the spec: the storage is exactly `rows_` rows of
`cols_` entries, and the matrix is the empty one (no rows, no columns, no storage) or has
a row and a column. -/
def Invariant (a : S21Matrix α) : Prop :=
  a.WF ∧ ((a.rows_ = 0 ∧ a.cols_ = 0 ∧ a.matrix_ = []) ∨ (1 ≤ a.rows_ ∧ 1 ≤ a.cols_))

/-- The matrices a program can hold: those of the two constructors, and what the public
operations leave in the receiver or return, after a return or a throw, when receiver and
operands are such matrices. A member of the `Except` model that throws leaves the
receiver as it was, which is reachable already. -/
inductive Reachable [Field α] [DecidableEq α] : S21Matrix α → Prop
  | default : Reachable empty
  | dimensioned (r c : Int) (m : S21Matrix α) : create r c = .ok m → Reachable m
  | copy (a : S21Matrix α) : Reachable a → Reachable (copyConstruct a)
  | moveNew (a : S21Matrix α) : Reachable a → Reachable (moveConstruct a).1
  | moveOld (a : S21Matrix α) : Reachable a → Reachable (moveConstruct a).2
  | copyAssigned (a b : S21Matrix α) : Reachable a → Reachable b →
      Reachable (copyAssign a b)
  | moveAssignedNew (a b : S21Matrix α) : Reachable a → Reachable b →
      Reachable (moveAssign a b).1
  | moveAssignedOld (a b : S21Matrix α) : Reachable a → Reachable b →
      Reachable (moveAssign a b).2
  | setRows (a : S21Matrix α) (n : Int) : Reachable a → Reachable (a.SetRows n).left
  | setCols (a : S21Matrix α) (c : Int) : Reachable a → Reachable (a.SetCols c).left
  | setDimensions (a : S21Matrix α) (r c : Int) : Reachable a →
      Reachable (a.SetDimensions r c).left
  | setElement (a : S21Matrix α) (row col : Int) (value : α) : Reachable a →
      Reachable (a.SetElement row col value).left
  | sumMatrix (a b : S21Matrix α) : Reachable a → Reachable b →
      Reachable (a.SumMatrix b).left
  | subMatrix (a b : S21Matrix α) : Reachable a → Reachable b →
      Reachable (a.SubMatrix b).left
  | mulNumber (a s : S21Matrix α) (num : α) : Reachable a → a.MulNumber num = .ok s →
      Reachable s
  | mulMatrix (a b s : S21Matrix α) : Reachable a → Reachable b →
      a.MulMatrix b = .ok s → Reachable s
  | transpose (a t : S21Matrix α) : Reachable a → a.Transpose = .ok t → Reachable t
  | calcComplements (a c : S21Matrix α) : Reachable a → a.CalcComplements = .ok c →
      Reachable c
  | inverseMatrix (a x : S21Matrix α) : Reachable a → a.InverseMatrix = .ok x →
      Reachable x

/-- The leading `n × n` block of the entries, as a matrix of Mathlib. -/
def toMatrix [Zero α] (n : Nat) (a : S21Matrix α) : Matrix (Fin n) (Fin n) α :=
  Matrix.of fun i j => a.cell i j

/-- The `n × n` identity matrix. -/
def identity [Zero α] [One α] (n : Nat) : S21Matrix α :=
  ⟨n, n, (List.range n).map fun i => (List.range n).map fun j => if i = j then 1 else 0⟩

/-- The zero matrix `S21Matrix(2, 2)`. -/
def zero2x2 : S21Matrix ℚ := ⟨2, 2, [[0, 0], [0, 0]]⟩

/-- What the failing call `SetDimensions(3, -1)` leaves of `S21Matrix(2, 2)`. -/
def zero3x2 : S21Matrix ℚ := ⟨3, 2, [[0, 0], [0, 0], [0, 0]]⟩

instance (a : S21Matrix α) : Decidable a.WF := by
  unfold WF Shape
  infer_instance

end S21Matrix

/-! ## Loops -/

theorem foldlM_range_inv {σ : Type} (body : Nat → σ → Except Error σ) (init : σ)
    (P : Nat → σ → Prop) (n : Nat) (h0 : P 0 init)
    (hstep : ∀ i s, i < n → P i s → ∃ s', body i s = .ok s' ∧ P (i + 1) s') :
    ∀ k, k ≤ n → ∃ s', (List.range k).foldlM (fun s i => body i s) init = .ok s' ∧ P k s' := by
  intro k
  induction k with
  | zero => intro _; exact ⟨init, rfl, h0⟩
  | succ k ih =>
    intro hk
    obtain ⟨s, hs, hP⟩ := ih (Nat.le_of_succ_le hk)
    obtain ⟨s', hs', hP'⟩ := hstep k s hk hP
    refine ⟨s', ?_, hP'⟩
    rw [List.range_succ, List.foldlM_append, hs]
    simp only [List.foldlM_cons, List.foldlM_nil]
    show (body k s >>= fun s'' => pure s'') = _
    rw [hs']; rfl

/-- The invariant rule for `forLoop`: an invariant that holds at entry and that every
iteration re-establishes (without failing) holds at exit, and the loop does not fail. -/
theorem forLoop_inv {σ : Type} (n : Int) (body : Nat → σ → Except Error σ) (init : σ)
    (P : Nat → σ → Prop) (h0 : P 0 init)
    (hstep : ∀ i s, i < n.toNat → P i s → ∃ s', body i s = .ok s' ∧ P (i + 1) s') :
    ∃ s', forLoop n body init = .ok s' ∧ P n.toNat s' :=
  foldlM_range_inv body init P n.toNat h0 hstep n.toNat (Nat.le_refl _)

theorem foldlM_congr_mem {σ β : Type} (f g : σ → β → Except Error σ) (l : List β) :
    (∀ x ∈ l, ∀ s, f s x = g s x) → ∀ init, l.foldlM f init = l.foldlM g init := by
  induction l with
  | nil => intro _ _; rfl
  | cons x xs ih =>
    intro h init
    simp only [List.foldlM_cons]
    rw [h x (List.mem_cons_self _ _) init]
    congr 1
    funext s
    exact ih (fun y hy s => h y (List.mem_cons_of_mem _ hy) s) s

/-- Two loop bodies that agree on every index below the bound give the same loop. -/
theorem forLoop_congr {σ : Type} (n : Int) (f g : Nat → σ → Except Error σ) (init : σ)
    (h : ∀ i s, i < n.toNat → f i s = g i s) : forLoop n f init = forLoop n g init := by
  unfold forLoop
  apply foldlM_congr_mem
  intro x hx s
  exact h x s (List.mem_range.mp hx)

theorem forLoop_nonpos {σ : Type} (n : Int) (hn : n ≤ 0) (body : Nat → σ → Except Error σ)
    (init : σ) : forLoop n body init = .ok init := by
  unfold forLoop
  rw [Int.toNat_of_nonpos hn]
  rfl

theorem forLoop_error_first {σ : Type} (n : Int) (hn : 1 ≤ n)
    (body : Nat → σ → Except Error σ) (init : σ) (e : Error) (h : body 0 init = .error e) :
    forLoop n body init = .error e := by
  unfold forLoop
  obtain ⟨k, hk⟩ : ∃ k, n.toNat = k + 1 := ⟨n.toNat - 1, by omega⟩
  rw [hk, List.range_succ_eq_map, List.foldlM_cons, h]
  rfl

theorem ok_bind {ε β γ : Type} (x : β) (f : β → Except ε γ) :
    ((Except.ok x : Except ε β) >>= f) = f x := rfl

theorem error_bind {ε β γ : Type} (e : ε) (f : β → Except ε γ) :
    ((Except.error e : Except ε β) >>= f) = .error e := rfl

theorem bind_eq_ok {ε β γ : Type} {x : Except ε β} {f : β → Except ε γ} {y : γ} :
    (x >>= f) = .ok y ↔ ∃ s, x = .ok s ∧ f s = .ok y := by
  cases x with
  | error e => exact ⟨fun h => (nomatch h), fun ⟨_, h, _⟩ => (nomatch h)⟩
  | ok s =>
    exact ⟨fun h => ⟨s, rfl, h⟩, fun ⟨_, h, h2⟩ => (Except.ok.inj h) ▸ h2⟩

/-- The invariant rule with a postcondition, in the shape of a goal. -/
theorem forLoop_post {σ : Type} (n : Int) (body : Nat → σ → Except Error σ) (init : σ)
    (P : Nat → σ → Prop) (post : σ → Prop) (h0 : P 0 init)
    (hstep : ∀ i s, i < n.toNat → P i s → ∃ s', body i s = .ok s' ∧ P (i + 1) s')
    (hpost : ∀ s, P n.toNat s → post s) :
    ∃ s', forLoop n body init = .ok s' ∧ post s' := by
  obtain ⟨s, hs, hP⟩ := forLoop_inv n body init P h0 hstep
  exact ⟨s, hs, hpost s hP⟩

/-! ## Rectangular storage -/

section storage

variable {α : Type}

theorem entry_of_row [Zero α] {v : List (List α)} {i : Nat} {row : List α}
    (h : v[i]? = some row) (j : Nat) : entry v i j = (row[j]?).getD 0 := by
  unfold entry
  simp only [List.getD_eq_getElem?_getD, h, Option.getD_some]

theorem Shape.getElem? {v : List (List α)} {r c i : Nat} (h : Shape v r c) (hi : i < r) :
    ∃ row, v[i]? = some row ∧ row.length = c := by
  have hl : i < v.length := by rw [h.1]; exact hi
  exact ⟨v[i], List.getElem?_eq_getElem hl, h.2 _ (List.getElem_mem hl)⟩

theorem shape_replicate (r c : Nat) (x : α) :
    Shape (List.replicate r (List.replicate c x)) r c := by
  refine ⟨List.length_replicate _ _, ?_⟩
  intro row hrow
  rw [List.eq_of_mem_replicate hrow]
  exact List.length_replicate _ _

theorem entry_replicate [Zero α] (r c i j : Nat) :
    entry (List.replicate r (List.replicate c (0 : α))) i j = 0 := by
  unfold entry
  simp only [List.getD_eq_getElem?_getD, List.getElem?_replicate]
  by_cases hi : i < r
  · by_cases hj : j < c <;> simp [hi, hj, List.getElem?_replicate]
  · simp [hi]

theorem vecGet_of_shape [Zero α] {v : List (List α)} {r c i j : Nat} (h : Shape v r c)
    (hi : i < r) (hj : j < c) : vecGet v i j = .ok (entry v i j) := by
  obtain ⟨row, hrow, hlen⟩ := h.getElem? hi
  have hl2 : j < row.length := by rw [hlen]; exact hj
  rw [entry_of_row hrow]
  unfold vecGet
  simp only [hrow, List.getElem?_eq_getElem hl2, Option.getD_some]

theorem vecSet_of_shape [Zero α] {v : List (List α)} {r c i j : Nat} (x : α)
    (h : Shape v r c) (hi : i < r) (hj : j < c) :
    ∃ v', vecSet v i j x = .ok v' ∧ Shape v' r c ∧ entry v' i j = x ∧
      ∀ p q, (p ≠ i ∨ q ≠ j) → entry v' p q = entry v p q := by
  have hl : i < v.length := by rw [h.1]; exact hi
  obtain ⟨row, hrow, hlen⟩ := h.getElem? hi
  have hl2 : j < row.length := by rw [hlen]; exact hj
  have hnew : (v.set i (row.set j x))[i]? = some (row.set j x) := by
    rw [List.getElem?_set_self hl]
  refine ⟨v.set i (row.set j x), ?_, ⟨?_, ?_⟩, ?_, ?_⟩
  · unfold vecSet
    simp only [hrow, if_pos hl2]
  · rw [List.length_set]; exact h.1
  · intro row' hrow'
    rcases List.mem_or_eq_of_mem_set hrow' with hmem | heq
    · exact h.2 _ hmem
    · rw [heq, List.length_set]; exact hlen
  · rw [entry_of_row hnew, List.getElem?_set_self hl2, Option.getD_some]
  · intro p q hpq
    by_cases hp : p = i
    · subst hp
      have hq : q ≠ j := by
        rcases hpq with h1 | h1
        · exact absurd rfl h1
        · exact h1
      rw [entry_of_row hnew, entry_of_row hrow, List.getElem?_set_ne (Ne.symm hq)]
    · unfold entry
      simp only [List.getD_eq_getElem?_getD]
      rw [List.getElem?_set_ne (Ne.symm hp)]

/-- Two rectangular storages of one shape with the same entries are equal. -/
theorem shape_ext [Zero α] {v w : List (List α)} {r c : Nat} (hv : Shape v r c)
    (hw : Shape w r c) (h : ∀ i j, i < r → j < c → entry v i j = entry w i j) : v = w := by
  apply List.ext_getElem? 
  intro i
  by_cases hi : i < r
  · obtain ⟨row1, h1, l1⟩ := hv.getElem? hi
    obtain ⟨row2, h2, l2⟩ := hw.getElem? hi
    rw [h1, h2]
    congr 1
    apply List.ext_getElem (by rw [l1, l2])
    intro j h3 h4
    have hj : j < c := by rw [← l1]; exact h3
    have := h i j hi hj
    rw [entry_of_row h1, entry_of_row h2, List.getElem?_eq_getElem h3,
      List.getElem?_eq_getElem h4] at this
    exact this
  · rw [List.getElem?_eq_none (by rw [hv.1]; omega), List.getElem?_eq_none (by rw [hw.1]; omega)]

end storage

/-! ## Construction and `minor` -/

namespace S21Matrix

variable {α : Type}

theorem create_ok [Zero α] {r c : Int} (hr : 1 ≤ r) (hc : 1 ≤ c) :
    (create r c : Except Error (S21Matrix α)) =
      .ok ⟨r, c, List.replicate r.toNat (List.replicate c.toNat 0)⟩ := by
  unfold create
  rw [if_neg (by omega)]

theorem create_error [Zero α] {r c : Int} (h : r < 1 ∨ c < 1) :
    (create r c : Except Error (S21Matrix α)) = .error .InvalidDimension := by
  unfold create
  rw [if_pos h]

theorem skip_lt {r p n : Nat} (hr : r < n) (hp : p < n - 1) : skip r p < n := by
  unfold skip
  split <;> omega

theorem shape_deleteRowCol {v : List (List α)} {R C row col : Nat} (h : Shape v R C)
    (hrow : row < R) (hcol : col < C) :
    Shape ((v.eraseIdx row).map (fun r => r.eraseIdx col)) (R - 1) (C - 1) := by
  constructor
  · rw [List.length_map, List.length_eraseIdx, if_pos (by rw [h.1]; exact hrow), h.1]
  · intro r hr
    obtain ⟨r', hr', rfl⟩ := List.mem_map.mp hr
    have hlen := h.2 r' (List.mem_of_mem_eraseIdx hr')
    rw [List.length_eraseIdx, if_pos (by rw [hlen]; exact hcol), hlen]

theorem entry_deleteRowCol [Zero α] (v : List (List α)) (row col p q : Nat) :
    entry ((v.eraseIdx row).map (fun r => r.eraseIdx col)) p q =
      entry v (skip row p) (skip col q) := by
  unfold entry skip
  simp only [List.getD_eq_getElem?_getD, List.getElem?_map, List.getElem?_eraseIdx]
  by_cases hp : p < row
  · simp only [hp, if_true]
    cases v[p]? with
    | none => simp
    | some r =>
      simp only [Option.map_some', Option.getD_some, List.getElem?_eraseIdx]
      by_cases hq : q < col <;> simp [hq]
  · simp only [hp, if_false]
    cases v[p + 1]? with
    | none => simp
    | some r =>
      simp only [Option.map_some', Option.getD_some, List.getElem?_eraseIdx]
      by_cases hq : q < col <;> simp [hq]

theorem minor_inner [Zero α] {v : List (List α)} {R C R' : Nat} (hv : Shape v R C)
    (cols : Int) (hcols : cols.toNat = C) {col : Nat} (hcol : col < C) {i m : Nat}
    (hi : i < R) {res0 : List (List α)} (h0 : Shape res0 R' (C - 1)) (hm : m < R') :
    ∃ st, forLoop cols (fun j (st2 : List (List α) × Nat) =>
        if (j : Int) = (col : Int) then pure st2
        else do
          let x ← vecGet v i j
          let r ← vecSet st2.1 m st2.2 x
          pure (r, st2.2 + 1)) (res0, 0) = .ok st ∧
      (Shape st.1 R' (C - 1) ∧ (∀ q, q < C - 1 → entry st.1 m q = entry v i (skip col q)) ∧
        ∀ p q, p ≠ m → entry st.1 p q = entry res0 p q) := by
  refine forLoop_post _ _ _
    (fun j (st2 : List (List α) × Nat) =>
      st2.2 = (if j ≤ col then j else j - 1) ∧ Shape st2.1 R' (C - 1) ∧
      (∀ q, q < st2.2 → entry st2.1 m q = entry v i (skip col q)) ∧
      ∀ p q, p ≠ m → entry st2.1 p q = entry res0 p q) _
    ⟨by simp, h0, fun q hq => absurd hq (Nat.not_lt_zero _), fun _ _ _ => rfl⟩ ?_ ?_
  · rintro j ⟨res, n⟩ hj ⟨hn, hsh, hrow, hframe⟩
    rw [hcols] at hj
    dsimp only at hn hsh hrow hframe ⊢
    by_cases hjc : j = col
    · refine ⟨(res, n), ?_, ?_, hsh, hrow, hframe⟩
      · rw [if_pos (by rw [hjc])]; rfl
      · rw [hn, hjc, if_pos (Nat.le_refl _), if_neg (by omega)]; omega
    · have hn' : n < C - 1 := by rw [hn]; split <;> omega
      have hsk : skip col n = j := by unfold skip; rw [hn]; split <;> split <;> omega
      obtain ⟨res', hset, hsh', hval, hoth⟩ :=
        vecSet_of_shape (entry v i j) hsh hm hn'
      refine ⟨(res', n + 1), ?_, ?_, hsh', ?_, ?_⟩
      · rw [if_neg (by intro h; exact hjc (by exact_mod_cast h)),
          vecGet_of_shape hv hi hj, ok_bind, hset, ok_bind]
        rfl
      · dsimp only
        rw [hn]; split <;> split <;> omega
      · intro q hq
        by_cases hqn : q = n
        · rw [hqn, hval, hsk]
        · rw [hoth m q (Or.inr hqn)]
          exact hrow q (by dsimp only at hq; omega)
      · intro p q hp
        rw [hoth p q (Or.inl hp)]
        exact hframe p q hp
  · rintro ⟨res, n⟩ ⟨hn, hsh, hrow, hframe⟩
    dsimp only at hn hsh hrow hframe ⊢
    have hC : n = C - 1 := by rw [hn, hcols, if_neg (by omega)]
    subst hC
    exact ⟨hsh, hrow, hframe⟩

/-- On a matrix with at least two rows and two columns, at valid indices, `minor`
succeeds and returns the matrix with the row and the column deleted. -/
theorem minor_eq [Zero α] {a : S21Matrix α} (hwf : a.WF) (row col : Nat)
    (hR : 2 ≤ a.rows_) (hC : 2 ≤ a.cols_) (hrow : (row : Int) < a.rows_)
    (hcol : (col : Int) < a.cols_) :
    a.minor row col = .ok (a.deleteRowCol row col) := by
  obtain ⟨_, _, hv⟩ := hwf
  have hrow' : row < a.rows_.toNat := by omega
  have hcol' : col < a.cols_.toNat := by omega
  have e1 : (a.rows_ - 1).toNat = a.rows_.toNat - 1 := by omega
  have e2 : (a.cols_ - 1).toNat = a.cols_.toNat - 1 := by omega
  unfold minor
  rw [create_ok (by omega) (by omega), ok_bind, bind_eq_ok]
  refine forLoop_post _ _ _
    (fun i (st : List (List α) × Nat) =>
      st.2 = (if i ≤ row then i else i - 1) ∧
      Shape st.1 (a.rows_.toNat - 1) (a.cols_.toNat - 1) ∧
      ∀ p q, p < st.2 → q < a.cols_.toNat - 1 →
        entry st.1 p q = entry a.matrix_ (skip row p) (skip col q)) _
    ⟨by simp, by dsimp only; rw [e1, e2]; exact shape_replicate _ _ _,
      fun p q hp => absurd hp (Nat.not_lt_zero _)⟩ ?_ ?_
  · rintro i ⟨res, m⟩ hi ⟨hm, hsh, hent⟩
    dsimp only at hm hsh hent ⊢
    by_cases hir : i = row
    · refine ⟨(res, m), ?_, ?_, hsh, hent⟩
      · rw [if_pos (by rw [hir])]; rfl
      · rw [hm, hir, if_pos (Nat.le_refl _), if_neg (by omega)]; omega
    · have hm' : m < a.rows_.toNat - 1 := by rw [hm]; split <;> omega
      have hsk : skip row m = i := by unfold skip; rw [hm]; split <;> split <;> omega
      obtain ⟨⟨res', n'⟩, hloop, hsh', hnew, hframe⟩ :=
        minor_inner hv a.cols_ rfl hcol' hi hsh hm' (i := i) (m := m)
      dsimp only at hsh' hnew hframe
      refine ⟨(res', m + 1), ?_, ?_, hsh', ?_⟩
      · rw [if_neg (by intro h; exact hir (by exact_mod_cast h)), hloop, ok_bind]
        rfl
      · dsimp only
        rw [hm]; split <;> split <;> omega
      · intro p q hp hq
        by_cases hpm : p = m
        · rw [hpm, hnew q hq, hsk]
        · rw [hframe p q hpm]
          exact hent p q (by dsimp only at hp; omega) hq
  · rintro ⟨res, m⟩ ⟨hn, hsh, hent⟩
    dsimp only at hn hsh hent ⊢
    have hm : m = a.rows_.toNat - 1 := by rw [hn, if_neg (by omega)]
    subst hm
    have hres : res = (a.matrix_.eraseIdx row).map (fun r => r.eraseIdx col) := by
      apply shape_ext hsh (shape_deleteRowCol hv hrow' hcol')
      intro p q hp hq
      rw [hent p q hp hq, entry_deleteRowCol]
    rw [hres]; rfl

theorem minor_error [Zero α] (a : S21Matrix α) (row col : Int)
    (h : a.rows_ < 2 ∨ a.cols_ < 2) : a.minor row col = .error .InvalidDimension := by
  unfold minor
  rw [create_error (by omega)]
  rfl

theorem minor_rows [Zero α] {a m : S21Matrix α} {row col : Int}
    (h : a.minor row col = .ok m) : m.rows_ = a.rows_ - 1 ∧ m.cols_ = a.cols_ - 1 := by
  unfold minor at h
  by_cases hd : a.rows_ - 1 < 1 ∨ a.cols_ - 1 < 1
  · rw [create_error hd] at h
    cases h
  · rw [create_ok (by omega) (by omega)] at h
    simp only [bind, Except.bind, pure, Except.pure] at h
    split at h
    · cases h
    · cases h
      exact ⟨rfl, rfl⟩

theorem wf_deleteRowCol {a : S21Matrix α} (hwf : a.WF) {row col : Nat}
    (hR : 1 ≤ a.rows_) (hC : 1 ≤ a.cols_) (hrow : (row : Int) < a.rows_)
    (hcol : (col : Int) < a.cols_) : (a.deleteRowCol row col).WF := by
  obtain ⟨_, _, hv⟩ := hwf
  refine ⟨?_, ?_, ?_⟩
  · show 0 ≤ a.rows_ - 1
    omega
  · show 0 ≤ a.cols_ - 1
    omega
  · show Shape _ (a.rows_ - 1).toNat (a.cols_ - 1).toNat
    have e1 : (a.rows_ - 1).toNat = a.rows_.toNat - 1 := by omega
    have e2 : (a.cols_ - 1).toNat = a.cols_.toNat - 1 := by omega
    rw [e1, e2]
    exact shape_deleteRowCol hv (by omega) (by omega)

end S21Matrix

/-! ## The recursive determinant -/

namespace S21Matrix

variable {α : Type}

theorem determinantStep_congr [Ring α] (f g : S21Matrix α → Except Error α)
    (other : S21Matrix α)
    (h : ∀ (i : Nat) sub, other.minor 0 i = .ok sub → f sub = g sub) :
    determinantStep f other = determinantStep g other := by
  unfold determinantStep
  split
  · rfl
  · split
    · rfl
    · apply forLoop_congr
      intro i det _
      dsimp only
      cases hm : other.minor 0 (i : Int) with
      | error e => rfl
      | ok sub => rw [ok_bind, ok_bind, h i sub hm]

/-- The unfolding equation of the C++ function `determinantRecursive`: the budget of
`determinantFuel` never shows. -/
theorem determinantRecursive_eq [Ring α] (other : S21Matrix α) :
    determinantRecursive other = determinantStep determinantRecursive other := by
  unfold determinantRecursive
  cases hn : other.rows_.toNat with
  | zero =>
    rw [determinantFuel]
    apply determinantStep_congr
    intro i sub hsub
    rw [minor_error other 0 i (Or.inl (by omega))] at hsub
    cases hsub
  | succ k =>
    rw [determinantFuel]
    apply determinantStep_congr
    intro i sub hsub
    have hk : sub.rows_.toNat = k := by
      rw [(minor_rows hsub).1]; omega
    rw [hk]

theorem sign_eq_neg_one_pow [Ring α] (i : Nat) :
    (if i % 2 = 0 then (1 : α) else -1) = (-1) ^ i := by
  by_cases h : i % 2 = 0
  · rw [if_pos h, Even.neg_one_pow (Nat.even_iff.mpr h)]
  · rw [if_neg h, Odd.neg_one_pow (Nat.odd_iff.mpr (by omega))]

theorem determinantRecursive_zero [Ring α] (a : S21Matrix α) (hr : a.rows_ = 0)
    (hc : a.cols_ ≤ 0) : determinantRecursive a = .ok 0 := by
  rw [determinantRecursive_eq]
  unfold determinantStep
  rw [if_neg (by omega), if_neg (by omega), forLoop_nonpos _ hc]

theorem determinantRecursive_one [Ring α] {a : S21Matrix α} (hwf : a.WF) (hr : a.rows_ = 1)
    (hc : a.cols_ = 1) : determinantRecursive a = .ok (a.cell 0 0) := by
  obtain ⟨_, _, hv⟩ := hwf
  rw [determinantRecursive_eq]
  unfold determinantStep
  rw [if_pos hr, vecGet_of_shape hv (by omega) (by omega)]
  rfl

theorem determinantRecursive_two [Ring α] {a : S21Matrix α} (hwf : a.WF) (hr : a.rows_ = 2)
    (hc : a.cols_ = 2) :
    determinantRecursive a =
      .ok (a.cell 0 0 * a.cell 1 1 - a.cell 0 1 * a.cell 1 0) := by
  obtain ⟨_, _, hv⟩ := hwf
  rw [determinantRecursive_eq]
  unfold determinantStep
  rw [if_neg (by omega), if_pos hr, vecGet_of_shape hv (by omega) (by omega), ok_bind,
    vecGet_of_shape hv (by omega) (by omega), ok_bind,
    vecGet_of_shape hv (by omega) (by omega), ok_bind,
    vecGet_of_shape hv (by omega) (by omega), ok_bind]
  rfl

/-- The Laplace expansion along row `0`, given the determinants of the minors. -/
theorem determinantRecursive_expand [Ring α] {a : S21Matrix α} (hwf : a.WF) {n : Nat}
    (hr : a.rows_ = n) (hc : a.cols_ = n) (hn : 3 ≤ n) (D : Nat → α)
    (hD : ∀ j, j < n → determinantRecursive (a.deleteRowCol 0 j) = .ok (D j)) :
    determinantRecursive a =
      .ok (∑ j in Finset.range n, (-1) ^ j * a.cell 0 j * D j) := by
  have hv := hwf.2.2
  have hcn : a.cols_.toNat = n := by omega
  rw [determinantRecursive_eq]
  unfold determinantStep
  rw [if_neg (by omega), if_neg (by omega)]
  obtain ⟨d, hd, hval⟩ := forLoop_inv a.cols_ (fun i det => do
      let submatrix ← a.minor 0 i
      let x ← vecGet a.matrix_ 0 i
      let d ← determinantRecursive submatrix
      pure (det + (if i % 2 = 0 then (1 : α) else -1) * x * d)) 0
    (fun i det => det = ∑ j in Finset.range i, (-1) ^ j * a.cell 0 j * D j)
    (by simp)
    (by
      intro i det hi hdet
      rw [hcn] at hi
      refine ⟨det + (-1) ^ i * a.cell 0 i * D i, ?_, ?_⟩
      · dsimp only
        have hm : a.minor 0 (i : Int) = .ok (a.deleteRowCol 0 i) := by
          have := minor_eq hwf 0 i (by omega) (by omega)
            (by push_cast; omega) (by omega)
          simpa using this
        rw [hm, ok_bind, vecGet_of_shape hv (by omega) (by omega), ok_bind, hD i hi, ok_bind,
          sign_eq_neg_one_pow]
        rfl
      · dsimp only
        rw [Finset.sum_range_succ, hdet])
  rw [hd, hval, hcn]

/-- On every well-formed square matrix `determinantRecursive` returns a value. -/
theorem determinantRecursive_ok [Ring α] :
    ∀ (n : Nat) (a : S21Matrix α), a.WF → a.rows_ = n → a.cols_ = n →
      determinantRecursive a = .ok (detValue a) := by
  intro n
  induction n with
  | zero =>
    intro a _ hr hc
    have h := determinantRecursive_zero a (by simpa using hr) (by simp [hc])
    unfold detValue
    rw [h]
  | succ k ih =>
    intro a hwf hr hc
    have key : ∃ d, determinantRecursive a = .ok d := by
      by_cases h1 : k + 1 = 1
      · exact ⟨_, determinantRecursive_one hwf (by omega) (by omega)⟩
      by_cases h2 : k + 1 = 2
      · exact ⟨_, determinantRecursive_two hwf (by omega) (by omega)⟩
      refine ⟨_, determinantRecursive_expand hwf hr hc (by omega)
        (fun j => detValue (a.deleteRowCol 0 j)) ?_⟩
      intro j hj
      apply ih
      · exact wf_deleteRowCol hwf (by omega) (by omega) (by push_cast; omega) (by omega)
      · show a.rows_ - 1 = _
        omega
      · show a.cols_ - 1 = _
        omega
    obtain ⟨d, hd⟩ := key
    unfold detValue
    rw [hd]

end S21Matrix

/-! ## Loops that fill a matrix cell by cell -/

section fill

variable {α : Type}

/-- A nested loop over `(i, j)` whose body writes the cell `(i, j)` and no other cell
leaves every cell with the value the body writes. -/
theorem forLoop_fill [Zero α] {R C : Nat} (r c : Int) (hr : r.toNat = R) (hc : c.toNat = C)
    (body : Nat → Nat → List (List α) → Except Error (List (List α))) (g : Nat → Nat → α)
    (m0 : List (List α)) (h0 : Shape m0 R C)
    (hbody : ∀ i j m, i < R → j < C → Shape m R C → entry m i j = entry m0 i j →
      ∃ m', body i j m = .ok m' ∧ Shape m' R C ∧ entry m' i j = g i j ∧
        ∀ p q, (p ≠ i ∨ q ≠ j) → entry m' p q = entry m p q) :
    ∃ m', forLoop r (fun i m => forLoop c (fun j m => body i j m) m) m0 = .ok m' ∧
      (Shape m' R C ∧ ∀ i j, i < R → j < C → entry m' i j = g i j) := by
  refine forLoop_post _ _ _
    (fun i m => Shape m R C ∧ (∀ p q, p < i → q < C → entry m p q = g p q) ∧
      ∀ p q, i ≤ p → entry m p q = entry m0 p q) _
    ⟨h0, fun p q hp => absurd hp (Nat.not_lt_zero _), fun _ _ _ => rfl⟩ ?_ ?_
  · rintro i m hi ⟨hsh, hdone, hrest⟩
    rw [hr] at hi
    dsimp only
    refine forLoop_post _ _ _
      (fun j m' => Shape m' R C ∧ (∀ p q, p < i → q < C → entry m' p q = g p q) ∧
        (∀ q, q < j → entry m' i q = g i q) ∧ (∀ q, j ≤ q → entry m' i q = entry m0 i q) ∧
        ∀ p q, i < p → entry m' p q = entry m0 p q) _
      ⟨hsh, hdone, fun q hq => absurd hq (Nat.not_lt_zero _),
        fun q _ => hrest i q (Nat.le_refl _), fun p q hp => hrest p q (Nat.le_of_lt hp)⟩ ?_ ?_
    · rintro j m' hj ⟨hsh', hdone', hrow, hrow0, hrest'⟩
      rw [hc] at hj
      obtain ⟨m'', hb, hsh'', hval, hoth⟩ := hbody i j m' hi hj hsh' (hrow0 j (Nat.le_refl _))
      refine ⟨m'', hb, hsh'', ?_, ?_, ?_, ?_⟩
      · intro p q hp hq
        rw [hoth p q (Or.inl (by omega))]
        exact hdone' p q hp hq
      · intro q hq
        by_cases hqj : q = j
        · rw [hqj, hval]
        · rw [hoth i q (Or.inr hqj)]
          exact hrow q (by omega)
      · intro q hq
        rw [hoth i q (Or.inr (by omega))]
        exact hrow0 q (by omega)
      · intro p q hp
        rw [hoth p q (Or.inl (by omega))]
        exact hrest' p q hp
    · rintro m' ⟨hsh', hdone', hrow, _, hrest'⟩
      rw [hc] at hrow
      refine ⟨hsh', ?_, ?_⟩
      · intro p q hp hq
        by_cases hpi : p = i
        · rw [hpi]; exact hrow q hq
        · exact hdone' p q (by omega) hq
      · intro p q hp
        exact hrest' p q (by omega)
  · rintro m ⟨hsh, hdone, _⟩
    rw [hr] at hdone
    exact ⟨hsh, hdone⟩

end fill

/-! ## `MulNumber`, `Transpose`, `CalcComplements`, `InverseMatrix`, `MulMatrix` -/

namespace S21Matrix

variable {α : Type}

/-- On a well-formed matrix, `MulNumber` succeeds, keeps the dimensions and multiplies
every entry by `num` on the right. -/
theorem mulNumber_spec [Ring α] {a : S21Matrix α} (hwf : a.WF) (num : α) :
    ∃ b, a.MulNumber num = .ok b ∧ b.rows_ = a.rows_ ∧ b.cols_ = a.cols_ ∧ b.WF ∧
      ∀ i j : Nat, (i : Int) < a.rows_ → (j : Int) < a.cols_ → b.cell i j = a.cell i j * num := by
  obtain ⟨h1, h2, hv⟩ := hwf
  obtain ⟨m, hm, hsh, hent⟩ := forLoop_fill a.rows_ a.cols_ rfl rfl
    (fun i j m => do
      let x ← vecGet m i j
      vecSet m i j (x * num))
    (fun i j => entry a.matrix_ i j * num) a.matrix_ hv
    (by
      intro i j m hi hj hsh he
      obtain ⟨m', hset, hsh', hval, hoth⟩ := vecSet_of_shape (entry m i j * num) hsh hi hj
      refine ⟨m', ?_, hsh', ?_, hoth⟩
      · dsimp only
        rw [vecGet_of_shape hsh hi hj, ok_bind, hset]
      · rw [hval, he])
  refine ⟨{ a with matrix_ := m }, ?_, rfl, rfl, ⟨h1, h2, hsh⟩, ?_⟩
  · unfold MulNumber
    rw [hm, ok_bind]
    rfl
  · intro i j hi hj
    exact hent i j (by omega) (by omega)

/-- On a well-formed matrix with at least one row and one column, `Transpose` succeeds
and returns the `cols_ × rows_` matrix with `result[j][i] = a[i][j]`. -/
theorem transpose_spec [Zero α] {a : S21Matrix α} (hwf : a.WF) (hR : 1 ≤ a.rows_)
    (hC : 1 ≤ a.cols_) :
    ∃ t, a.Transpose = .ok t ∧ t.rows_ = a.cols_ ∧ t.cols_ = a.rows_ ∧ t.WF ∧
      ∀ i j : Nat, (i : Int) < a.rows_ → (j : Int) < a.cols_ → t.cell j i = a.cell i j := by
  obtain ⟨h1, h2, hv⟩ := hwf
  have key : ∃ m, forLoop a.rows_ (fun i m =>
      forLoop a.cols_ (fun j m => do
        let x ← vecGet a.matrix_ i j
        vecSet m j i x) m)
        (List.replicate a.cols_.toNat (List.replicate a.rows_.toNat (0 : α))) = .ok m ∧
      (Shape m a.cols_.toNat a.rows_.toNat ∧
        ∀ p q, p < a.cols_.toNat → q < a.rows_.toNat →
          entry m p q = entry a.matrix_ q p) := by
    refine forLoop_post _ _ _
      (fun i m => Shape m a.cols_.toNat a.rows_.toNat ∧
        ∀ p q, p < a.cols_.toNat → q < i → entry m p q = entry a.matrix_ q p) _
      ⟨shape_replicate _ _ _, fun p q _ hq => absurd hq (Nat.not_lt_zero _)⟩ ?_ ?_
    · rintro i m hi ⟨hsh, hdone⟩
      dsimp only
      refine forLoop_post _ _ _
        (fun j m' => Shape m' a.cols_.toNat a.rows_.toNat ∧
          (∀ p q, p < a.cols_.toNat → q < i → entry m' p q = entry a.matrix_ q p) ∧
          ∀ p, p < j → entry m' p i = entry a.matrix_ i p) _
        ⟨hsh, hdone, fun p hp => absurd hp (Nat.not_lt_zero _)⟩ ?_ ?_
      · rintro j m' hj ⟨hsh', hdone', hcol⟩
        obtain ⟨m'', hset, hsh'', hval, hoth⟩ :=
          vecSet_of_shape (entry a.matrix_ i j) hsh' hj hi
        refine ⟨m'', ?_, hsh'', ?_, ?_⟩
        · dsimp only
          rw [vecGet_of_shape hv hi hj, ok_bind, hset]
        · intro p q hp hq
          rw [hoth p q (Or.inr (by omega))]
          exact hdone' p q hp hq
        · intro p hp
          by_cases hpj : p = j
          · rw [hpj, hval]
          · rw [hoth p i (Or.inl hpj)]
            exact hcol p (by omega)
      · rintro m' ⟨hsh', hdone', hcol⟩
        refine ⟨hsh', ?_⟩
        intro p q hp hq
        by_cases hqi : q = i
        · rw [hqi]; exact hcol p hp
        · exact hdone' p q hp (by omega)
    · rintro m ⟨hsh, hdone⟩
      exact ⟨hsh, hdone⟩
  obtain ⟨m, hm, hsh, hent⟩ := key
  refine ⟨⟨a.cols_, a.rows_, m⟩, ?_, rfl, rfl, ⟨h2, h1, hsh⟩, ?_⟩
  · unfold Transpose
    rw [create_ok hC hR, ok_bind]
    dsimp only
    rw [hm, ok_bind]
    rfl
  · intro i j hi hj
    exact hent j i (by omega) (by omega)

/-- On a well-formed square matrix of size at least two, `CalcComplements` succeeds and
returns the matrix of the signed determinants of the minors. -/
theorem calcComplements_spec [Ring α] {a : S21Matrix α} (hwf : a.WF) {n : Nat}
    (hr : a.rows_ = n) (hc : a.cols_ = n) (hn : 2 ≤ n) :
    ∃ c, a.CalcComplements = .ok c ∧ c.rows_ = n ∧ c.cols_ = n ∧ c.WF ∧
      ∀ i j, i < n → j < n →
        c.cell i j = (-1) ^ (i + j) * detValue (a.deleteRowCol i j) := by
  have hv := hwf.2.2
  have hrn : a.rows_.toNat = n := by omega
  have hcn : a.cols_.toNat = n := by omega
  obtain ⟨m, hm, hsh, hent⟩ := forLoop_fill a.rows_ a.cols_ hrn hcn
    (fun i j m => do
      let submatrix ← a.minor i j
      let sub_det ← determinantRecursive submatrix
      vecSet m i j ((if (i + j) % 2 = 0 then (1 : α) else -1) * sub_det))
    (fun i j => (-1) ^ (i + j) * detValue (a.deleteRowCol i j))
    (List.replicate n (List.replicate n (0 : α))) (shape_replicate _ _ _)
    (by
      intro i j m hi hj hsh _
      obtain ⟨m', hset, hsh', hval, hoth⟩ :=
        vecSet_of_shape ((-1) ^ (i + j) * detValue (a.deleteRowCol i j)) hsh hi hj
      refine ⟨m', ?_, hsh', hval, hoth⟩
      dsimp only
      have hdet := determinantRecursive_ok (n - 1) (a.deleteRowCol i j)
        (wf_deleteRowCol hwf (by omega) (by omega) (by omega) (by omega))
        (by show a.rows_ - 1 = _; omega) (by show a.cols_ - 1 = _; omega)
      rw [minor_eq hwf i j (by omega) (by omega) (by omega) (by omega), ok_bind, hdet, ok_bind,
        sign_eq_neg_one_pow, hset])
  refine ⟨⟨a.rows_, a.cols_, m⟩, ?_, hr, hc, ⟨hwf.1, hwf.2.1, ?_⟩, ?_⟩
  · unfold CalcComplements
    rw [if_neg (by rw [hr, hc]; exact fun h => h rfl)]
    rw [create_ok (by omega) (by omega)]
    simp only [ok_bind, pure_bind, hrn, hcn]
    rw [hm, ok_bind]
    rfl
  · show Shape m a.rows_.toNat a.cols_.toNat
    rw [hrn, hcn]; exact hsh
  · intro i j hi hj
    exact hent i j hi hj

theorem calcComplements_one [Ring α] (a : S21Matrix α) (hr : a.rows_ = 1)
    (hc : a.cols_ = 1) : a.CalcComplements = .error .InvalidDimension := by
  unfold CalcComplements
  rw [if_neg (by rw [hr, hc]; exact fun h => h rfl), create_ok (by omega) (by omega)]
  simp only [ok_bind, pure_bind]
  rw [forLoop_error_first a.rows_ (by omega) _ _ Error.InvalidDimension, error_bind]
  dsimp only
  rw [forLoop_error_first a.cols_ (by omega) _ _ Error.InvalidDimension]
  dsimp only
  rw [minor_error a _ _ (Or.inl (by omega)), error_bind]

theorem calcComplements_lt_one [Ring α] (a : S21Matrix α) (hsq : a.rows_ = a.cols_)
    (hr : a.rows_ < 1) : a.CalcComplements = .error .InvalidDimension := by
  unfold CalcComplements
  rw [if_neg (by rw [hsq]; exact fun h => h rfl), create_error (Or.inl hr)]
  rfl

theorem calcComplements_notSquare [Ring α] (a : S21Matrix α) (h : a.rows_ ≠ a.cols_) :
    a.CalcComplements = .error .NotSquare := by
  unfold CalcComplements
  rw [if_pos h]
  rfl

theorem determinant_square_eq [Ring α] (a : S21Matrix α) (h : a.rows_ = a.cols_) :
    a.Determinant = determinantRecursive a := by
  unfold Determinant
  rw [if_neg (fun h' => h' h)]

theorem determinant_notSquare [Ring α] (a : S21Matrix α) (h : a.rows_ ≠ a.cols_) :
    a.Determinant = .error .NotSquare := by
  unfold Determinant
  rw [if_pos h]

/-- On a well-formed square matrix `Determinant` returns `detValue`. -/
theorem determinant_ok [Ring α] {a : S21Matrix α} (hwf : a.WF) (h : a.rows_ = a.cols_) :
    a.Determinant = .ok (detValue a) := by
  rw [determinant_square_eq a h]
  exact determinantRecursive_ok a.rows_.toNat a hwf
    (by have := hwf.1; omega) (by have := hwf.1; omega)

/-- The steps of `InverseMatrix` on a well-formed square matrix of size at least two
with a determinant other than zero. -/
theorem inverseMatrix_spec [Field α] [DecidableEq α] {a : S21Matrix α} (hwf : a.WF)
    {n : Nat} (hr : a.rows_ = n) (hc : a.cols_ = n) (hn : 2 ≤ n) {d : α}
    (hd : a.Determinant = .ok d) (hd0 : d ≠ 0) :
    ∃ c t x, a.CalcComplements = .ok c ∧ c.Transpose = .ok t ∧
      t.MulNumber (1 / d) = .ok x ∧ a.InverseMatrix = .ok x ∧
      x.rows_ = n ∧ x.cols_ = n ∧ x.WF ∧
      ∀ i j, i < n → j < n → x.cell i j = c.cell j i * (1 / d) := by
  obtain ⟨c, hcc, hcr, hccol, hcwf, _⟩ := calcComplements_spec hwf hr hc hn
  obtain ⟨t, ht, htr, htc, htwf, htent⟩ :=
    transpose_spec hcwf (by omega) (by omega)
  obtain ⟨x, hx, hxr, hxc, hxwf, hxent⟩ := mulNumber_spec htwf (1 / d)
  refine ⟨c, t, x, hcc, ht, hx, ?_, by omega, by omega, hxwf, ?_⟩
  · unfold InverseMatrix
    rw [hd, ok_bind, if_neg hd0]
    simp only [pure_bind, hcc, ok_bind, ht, hx]
  · intro i j hi hj
    rw [hxent i j (by omega) (by omega), htent j i (by omega) (by omega)]

/-- On well-formed operands with `a.cols_ = other.rows_`, one row or more in `a` and one
column or more in `other`, `MulMatrix` succeeds and returns the matrix of the dot
products. -/
theorem mulMatrix_spec [Ring α] {a b : S21Matrix α} (ha : a.WF) (hb : b.WF)
    (hdim : a.cols_ = b.rows_) (hR : 1 ≤ a.rows_) (hC : 1 ≤ b.cols_) :
    ∃ c, a.MulMatrix b = .ok c ∧ c.rows_ = a.rows_ ∧ c.cols_ = b.cols_ ∧ c.WF ∧
      ∀ i j : Nat, (i : Int) < a.rows_ → (j : Int) < b.cols_ →
        c.cell i j = dot a b a.cols_.toNat i j := by
  have hva := ha.2.2
  have hvb := hb.2.2
  obtain ⟨m, hm, hsh, hent⟩ := forLoop_fill a.rows_ b.cols_ rfl rfl
    (fun i j m =>
      forLoop a.cols_ (fun k m => do
        let r ← vecGet m i j
        let x ← vecGet a.matrix_ i k
        let y ← vecGet b.matrix_ k j
        vecSet m i j (r + x * y)) m)
    (fun i j => dot a b a.cols_.toNat i j)
    (List.replicate a.rows_.toNat (List.replicate b.cols_.toNat (0 : α)))
    (shape_replicate _ _ _)
    (by
      intro i j m hi hj hsh he
      rw [entry_replicate] at he
      dsimp only
      refine forLoop_post _ _ _
        (fun k m' => Shape m' a.rows_.toNat b.cols_.toNat ∧ entry m' i j = dot a b k i j ∧
          ∀ p q, (p ≠ i ∨ q ≠ j) → entry m' p q = entry m p q) _
        ⟨hsh, he, fun _ _ _ => rfl⟩ ?_ ?_
      · rintro k m' hk ⟨hsh', hacc, hframe⟩
        obtain ⟨m'', hset, hsh'', hval, hoth⟩ := vecSet_of_shape
          (entry m' i j + entry a.matrix_ i k * entry b.matrix_ k j) hsh' hi hj
        refine ⟨m'', ?_, hsh'', ?_, ?_⟩
        · dsimp only
          rw [vecGet_of_shape hsh' hi hj, ok_bind, vecGet_of_shape hva hi hk, ok_bind,
            vecGet_of_shape hvb (by omega) hj, ok_bind, hset]
        · rw [hval, hacc]
          unfold dot
          rw [List.range_succ, List.foldl_append]
          rfl
        · intro p q hpq
          rw [hoth p q hpq]
          exact hframe p q hpq
      · rintro m' ⟨hsh', hacc, hframe⟩
        exact ⟨hsh', hacc, hframe⟩)
  refine ⟨⟨a.rows_, b.cols_, m⟩, ?_, rfl, rfl, ⟨ha.1, hb.2.1, hsh⟩, ?_⟩
  · unfold MulMatrix
    rw [if_neg (fun h => h hdim), create_ok hR hC]
    simp only [ok_bind, pure_bind]
    rw [hm, ok_bind]
    rfl
  · intro i j hi hj
    exact hent i j (by omega) (by omega)

theorem mulMatrix_incompatible [Ring α] (a b : S21Matrix α) (h : a.cols_ ≠ b.rows_) :
    a.MulMatrix b = .error .IncompatibleDimensions := by
  unfold MulMatrix
  rw [if_pos h]
  rfl

theorem mulMatrix_invalid [Ring α] (a b : S21Matrix α) (hdim : a.cols_ = b.rows_)
    (h : a.rows_ < 1 ∨ b.cols_ < 1) : a.MulMatrix b = .error .InvalidDimension := by
  unfold MulMatrix
  rw [if_neg (fun h' => h' hdim), create_error h]
  rfl

end S21Matrix

/-! ## The budget of `determinantFuel` never shows -/

section errorKinds

variable {α : Type}

theorem bind_error_kind {β γ : Type} (E : Error → Prop) (x : Except Error β)
    (f : β → Except Error γ) (hx : ∀ e, x = .error e → E e)
    (hf : ∀ s, x = .ok s → ∀ e, f s = .error e → E e) :
    ∀ e, (x >>= f) = .error e → E e := by
  intro e h
  cases x with
  | error e' =>
    rw [error_bind] at h
    cases h
    exact hx _ rfl
  | ok s =>
    rw [ok_bind] at h
    exact hf s rfl e h

theorem foldlM_error_kind {σ β : Type} (E : Error → Prop) (f : σ → β → Except Error σ)
    (hf : ∀ s x e, f s x = .error e → E e) (l : List β) :
    ∀ (init : σ) e, l.foldlM f init = .error e → E e := by
  induction l with
  | nil => intro init e h; cases h
  | cons x xs ih =>
    intro init e h
    rw [List.foldlM_cons] at h
    exact bind_error_kind E _ _ (fun e' he' => hf init x e' he') (fun s _ e' he' => ih s e' he')
      e h

theorem forLoop_error_kind {σ : Type} (E : Error → Prop) (n : Int)
    (body : Nat → σ → Except Error σ) (init : σ)
    (h : ∀ i s e, body i s = .error e → E e) :
    ∀ e, forLoop n body init = .error e → E e := by
  intro e he
  exact foldlM_error_kind E (fun s i => body i s) (fun s i e' h' => h i s e' h') _ init e he

theorem vecGet_error_kind (v : List (List α)) (i j : Nat) (e : Error)
    (h : vecGet v i j = .error e) : e = .OutOfBounds := by
  unfold vecGet at h
  split at h
  · cases h; rfl
  · split at h
    · cases h; rfl
    · cases h

theorem vecSet_error_kind (v : List (List α)) (i j : Nat) (x : α) (e : Error)
    (h : vecSet v i j x = .error e) : e = .OutOfBounds := by
  unfold vecSet at h
  split at h
  · cases h; rfl
  · split at h
    · cases h
    · cases h; rfl

theorem pure_error_kind {β : Type} (E : Error → Prop) (x : β) :
    ∀ e, (pure x : Except Error β) = .error e → E e := by
  intro e h
  cases h

namespace S21Matrix

theorem minor_error_kind [Zero α] (a : S21Matrix α) (row col : Int) (e : Error)
    (h : a.minor row col = .error e) : e = .InvalidDimension ∨ e = .OutOfBounds := by
  unfold minor at h
  revert e
  apply bind_error_kind
  · intro e he
    unfold create at he
    split at he
    · cases he; exact Or.inl rfl
    · cases he
  · intro result _
    apply bind_error_kind
    · apply forLoop_error_kind
      intro i st
      dsimp only
      split
      · exact pure_error_kind _ _
      · apply bind_error_kind
        · apply forLoop_error_kind
          intro j st2
          dsimp only
          split
          · exact pure_error_kind _ _
          · apply bind_error_kind
            · exact fun e he => Or.inr (vecGet_error_kind _ _ _ e he)
            · intro x _
              apply bind_error_kind
              · exact fun e he => Or.inr (vecSet_error_kind _ _ _ _ e he)
              · exact fun _ _ => pure_error_kind _ _
        · exact fun _ _ => pure_error_kind _ _
    · exact fun _ _ => pure_error_kind _ _

theorem determinantStep_error_kind [Ring α] (E : Error → Prop)
    (self : S21Matrix α → Except Error α) (other : S21Matrix α)
    (hself : ∀ (i : Nat) sub e, other.minor 0 i = .ok sub → self sub = .error e → E e)
    (h1 : E .OutOfBounds) (h2 : E .InvalidDimension) :
    ∀ e, determinantStep self other = .error e → E e := by
  have hget : ∀ i j e, vecGet other.matrix_ i j = .error e → E e := by
    intro i j e he
    rw [vecGet_error_kind _ _ _ e he]
    exact h1
  unfold determinantStep
  split
  · exact hget 0 0
  · split
    · apply bind_error_kind _ _ _ (hget 0 0)
      intro _ _
      apply bind_error_kind _ _ _ (hget 1 1)
      intro _ _
      apply bind_error_kind _ _ _ (hget 0 1)
      intro _ _
      apply bind_error_kind _ _ _ (hget 1 0)
      exact fun _ _ => pure_error_kind _ _
    · apply forLoop_error_kind
      intro i det
      dsimp only
      apply bind_error_kind
      · intro e he
        rcases minor_error_kind other 0 i e he with h | h
        · rw [h]; exact h2
        · rw [h]; exact h1
      · intro sub hsub
        apply bind_error_kind _ _ _ (hget 0 i)
        intro _ _
        apply bind_error_kind
        · exact fun e he => hself i sub e hsub he
        · exact fun _ _ => pure_error_kind _ _

theorem determinantFuel_error_kind [Ring α] :
    ∀ (fuel : Nat) (a : S21Matrix α), a.rows_.toNat ≤ fuel →
      ∀ e, determinantFuel fuel a = .error e → e = .InvalidDimension ∨ e = .OutOfBounds := by
  intro fuel
  induction fuel with
  | zero =>
    intro a ha
    rw [determinantFuel]
    refine determinantStep_error_kind (fun e => e = .InvalidDimension ∨ e = .OutOfBounds)
      _ _ ?_ (Or.inr rfl) (Or.inl rfl)
    intro i sub e hsub
    rw [minor_error a 0 i (Or.inl (by omega))] at hsub
    cases hsub
  | succ k ih =>
    intro a ha
    rw [determinantFuel]
    refine determinantStep_error_kind (fun e => e = .InvalidDimension ∨ e = .OutOfBounds)
      _ _ ?_ (Or.inr rfl) (Or.inl rfl)
    intro i sub e hsub
    apply ih
    rw [(minor_rows hsub).1]
    omega

/-- On no matrix at all does `determinantRecursive` run out of its budget: the only
failures are those of the C++ code (the constructor in `minor`, an access outside the
storage). -/
theorem determinantRecursive_ne_outOfFuel [Ring α] (a : S21Matrix α) :
    determinantRecursive a ≠ .error .OutOfFuel := by
  intro h
  rcases determinantFuel_error_kind a.rows_.toNat a (Nat.le_refl _) _ h with h' | h' <;>
    cases h'

end S21Matrix

end errorKinds

/-! ## Resizing -/

section resize

variable {α : Type}

theorem entry_out_of_shape [Zero α] {v : List (List α)} {R C : Nat} (h : Shape v R C)
    (p q : Nat) (hpq : R ≤ p ∨ C ≤ q) : entry v p q = 0 := by
  by_cases hp : p < R
  · obtain ⟨row, hrow, hlen⟩ := h.getElem? hp
    rw [entry_of_row hrow, List.getElem?_eq_none (by omega)]
    rfl
  · have hnone : v[p]? = none := List.getElem?_eq_none (by rw [h.1]; omega)
    unfold entry
    simp only [List.getD_eq_getElem?_getD, hnone]
    rfl

/-- One `std::copy` of a row prefix into the row of the same index of `tmp`. -/
theorem copyRow_of_shape [Zero α] {v t : List (List α)} {R C R' C' i : Nat} {k : Int}
    (hv : Shape v R C) (ht : Shape t R' C') (hi : i < R) (hi' : i < R') (hk : 0 ≤ k)
    (hkC : k.toNat ≤ C) (hkC' : k.toNat ≤ C') :
    ∃ t', copyRow v k i t = .ok t' ∧ Shape t' R' C' ∧
      ∀ p q, entry t' p q =
        if p = i then (if q < k.toNat then entry v i q else entry t i q) else entry t p q := by
  obtain ⟨src, hsrc, hsl⟩ := hv.getElem? hi
  obtain ⟨dst, hdst, hdl⟩ := ht.getElem? hi'
  have hlen : i < t.length := by rw [ht.1]; exact hi'
  have hnew : (t.set i (src.take k.toNat ++ dst.drop k.toNat))[i]? =
      some (src.take k.toNat ++ dst.drop k.toNat) := by
    rw [List.getElem?_set_self hlen]
  refine ⟨t.set i (src.take k.toNat ++ dst.drop k.toNat), ?_, ⟨?_, ?_⟩, ?_⟩
  · unfold copyRow stdCopy
    rw [hsrc, hdst]
    simp only
    rw [if_pos ⟨hk, by rw [hsl]; exact hkC, by rw [hdl]; exact hkC'⟩]
  · rw [List.length_set]; exact ht.1
  · intro row hrow
    rcases List.mem_or_eq_of_mem_set hrow with hmem | heq
    · exact ht.2 _ hmem
    · rw [heq, List.length_append, List.length_take, List.length_drop, hsl, hdl]
      omega
  · intro p q
    by_cases hp : p = i
    · rw [if_pos hp, hp, entry_of_row hnew]
      by_cases hq : q < k.toNat
      · rw [if_pos hq, entry_of_row hsrc,
          List.getElem?_append_left (by rw [List.length_take, hsl]; omega),
          List.getElem?_take_of_lt hq]
      · rw [if_neg hq, entry_of_row hdst,
          List.getElem?_append_right (by rw [List.length_take, hsl]; omega),
          List.getElem?_drop, List.length_take, hsl]
        congr 2
        omega
    · rw [if_neg hp]
      unfold entry
      simp only [List.getD_eq_getElem?_getD]
      rw [List.getElem?_set_ne (Ne.symm hp)]

/-- The copy loop of `SetRows` and `SetCols`: the first `L` rows of the zero matrix
`tmp` receive the first `k` entries of the rows of the source. -/
theorem forLoop_copyRow [Zero α] {v : List (List α)} {R C : Nat} (R' C' : Nat) (L k : Int)
    (hv : Shape v R C) (hL : L.toNat ≤ R) (hL' : L.toNat ≤ R') (hk : 0 ≤ k)
    (hkC : k.toNat ≤ C) (hkC' : k.toNat ≤ C') :
    ∃ t, forLoop L (copyRow v k) (List.replicate R' (List.replicate C' (0 : α))) = .ok t ∧
      (Shape t R' C' ∧
        ∀ p q, entry t p q = if p < L.toNat ∧ q < k.toNat then entry v p q else 0) := by
  refine forLoop_post _ _ _
    (fun i t => Shape t R' C' ∧
      ∀ p q, entry t p q = if p < i ∧ q < k.toNat then entry v p q else 0) _
    ⟨shape_replicate _ _ _, fun p q => by
      rw [entry_replicate, if_neg (fun h => Nat.not_lt_zero _ h.1)]⟩ ?_ ?_
  · rintro i t hi ⟨hsh, hent⟩
    obtain ⟨t', ht', hsh', hent'⟩ :=
      copyRow_of_shape hv hsh (by omega) (by omega) hk hkC hkC' (i := i)
    refine ⟨t', ht', hsh', ?_⟩
    intro p q
    rw [hent' p q]
    by_cases hp : p = i
    · rw [if_pos hp, hp]
      by_cases hq : q < k.toNat
      · rw [if_pos hq, if_pos ⟨Nat.lt_succ_self i, hq⟩]
      · rw [if_neg hq, if_neg (fun h => hq h.2), hent i q, if_neg (fun h => hq h.2)]
    · rw [if_neg hp, hent p q]
      by_cases hc : p < i ∧ q < k.toNat
      · rw [if_pos hc, if_pos ⟨by omega, hc.2⟩]
      · rw [if_neg hc, if_neg (fun h => hc ⟨by omega, h.2⟩)]
  · rintro t ⟨hsh, hent⟩
    exact ⟨hsh, hent⟩

end resize

namespace S21Matrix

variable {α : Type}

theorem cell_out_of_range [Zero α] {a : S21Matrix α} (hwf : a.WF) (p q : Nat)
    (hpq : a.rows_ ≤ p ∨ a.cols_ ≤ q) : a.cell p q = 0 :=
  entry_out_of_shape hwf.2.2 p q (by omega)

/-- On a well-formed matrix with a column, `SetRows(n)` with `n > 0` returns; the matrix
then has `n` rows and its columns, the rows below `min(rows_, n)` are those of `a` and
the other rows are zero. -/
theorem setRows_spec [Zero α] {a : S21Matrix α} (hwf : a.WF) (hC : 1 ≤ a.cols_) (n : Int)
    (hn : 0 < n) :
    ∃ s, a.SetRows n = .returned s ∧ s.rows_ = n ∧ s.cols_ = a.cols_ ∧ s.WF ∧
      ∀ p q : Nat, s.cell p q =
        if (p : Int) < min a.rows_ n ∧ (q : Int) < a.cols_ then a.cell p q else 0 := by
  obtain ⟨h1, h2, hv⟩ := hwf
  by_cases hne : n = a.rows_
  · refine ⟨a, ?_, hne.symm, rfl, ⟨h1, h2, hv⟩, ?_⟩
    · unfold SetRows
      rw [if_neg (by omega), if_neg (fun h => h hne)]
    · intro p q
      by_cases hc : (p : Int) < min a.rows_ n ∧ (q : Int) < a.cols_
      · rw [if_pos hc]
      · rw [if_neg hc]
        exact cell_out_of_range ⟨h1, h2, hv⟩ p q (by omega)
  · obtain ⟨t, ht, hsh, hent⟩ := forLoop_copyRow n.toNat a.cols_.toNat (min a.rows_ n)
      a.cols_ hv (by omega) (by omega) h2 (Nat.le_refl _) (Nat.le_refl _)
    refine ⟨{ a with matrix_ := t, rows_ := n }, ?_, rfl, rfl, ⟨by show 0 ≤ n; omega, h2, hsh⟩,
      ?_⟩
    · unfold SetRows
      rw [if_neg (by omega), if_pos hne, create_ok (by omega) hC, ok_bind]
      dsimp only
      rw [ht]
    · intro p q
      show entry t p q = _
      rw [hent p q]
      by_cases hc : (p : Int) < min a.rows_ n ∧ (q : Int) < a.cols_
      · rw [if_pos hc, if_pos (by omega)]; rfl
      · rw [if_neg hc, if_neg (by omega)]

/-- On a well-formed matrix with a row, `SetCols(c)` with `c > 0` returns; the matrix
then has its rows and `c` columns, the columns below `min(cols_, c)` are those of `a` and
the other columns are zero. -/
theorem setCols_spec [Zero α] {a : S21Matrix α} (hwf : a.WF) (hR : 1 ≤ a.rows_) (c : Int)
    (hc : 0 < c) :
    ∃ s, a.SetCols c = .returned s ∧ s.rows_ = a.rows_ ∧ s.cols_ = c ∧ s.WF ∧
      ∀ p q : Nat, s.cell p q =
        if (p : Int) < a.rows_ ∧ (q : Int) < min a.cols_ c then a.cell p q else 0 := by
  obtain ⟨h1, h2, hv⟩ := hwf
  by_cases hne : c = a.cols_
  · refine ⟨a, ?_, rfl, hne.symm, ⟨h1, h2, hv⟩, ?_⟩
    · unfold SetCols
      rw [if_neg (by omega), if_neg (fun h => h hne)]
    · intro p q
      by_cases hcond : (p : Int) < a.rows_ ∧ (q : Int) < min a.cols_ c
      · rw [if_pos hcond]
      · rw [if_neg hcond]
        exact cell_out_of_range ⟨h1, h2, hv⟩ p q (by omega)
  · obtain ⟨t, ht, hsh, hent⟩ := forLoop_copyRow a.rows_.toNat c.toNat a.rows_
      (min a.cols_ c) hv (Nat.le_refl _) (Nat.le_refl _) (by omega) (by omega) (by omega)
    refine ⟨{ a with matrix_ := t, cols_ := c }, ?_, rfl, rfl, ⟨h1, by show 0 ≤ c; omega, hsh⟩,
      ?_⟩
    · unfold SetCols
      rw [if_neg (by omega), if_pos hne, create_ok hR (by omega), ok_bind]
      dsimp only
      rw [ht]
    · intro p q
      show entry t p q = _
      rw [hent p q]
      by_cases hcond : (p : Int) < a.rows_ ∧ (q : Int) < min a.cols_ c
      · rw [if_pos hcond, if_pos (by omega)]; rfl
      · rw [if_neg hcond, if_neg (by omega)]

theorem setRows_nonpos [Zero α] (a : S21Matrix α) (n : Int) (hn : n ≤ 0) :
    a.SetRows n = .threw .InvalidDimension a := by
  unfold SetRows
  rw [if_pos hn]

theorem setCols_neg [Zero α] (a : S21Matrix α) (c : Int) (hc : c < 0) :
    a.SetCols c = .threw .InvalidDimension a := by
  unfold SetCols
  rw [if_pos hc]

/-- The call `SetCols(0)` on a matrix with a column: the construction of the temporary
with zero columns throws. -/
theorem setCols_zero [Zero α] (a : S21Matrix α) (hC : a.cols_ ≠ 0) :
    a.SetCols 0 = .threw .InvalidDimension a := by
  unfold SetCols
  rw [if_neg (by omega), if_pos (fun h => hC h.symm), create_error (Or.inr (by omega))]
  rfl

end S21Matrix

/-! ## Loops with `break`, and `EqMatrix` -/

section breakLoops

end breakLoops

namespace S21Matrix

variable {α : Type}

end S21Matrix

/-! ## Element access, `SumMatrix`, `SubMatrix` -/

section elementwise

variable {α : Type}

/-- The nested loop of `SumMatrix` and `SubMatrix` for a cell operation `f`. -/
theorem forLoop_zipCells [Zero α] (f : α → α → α) {v w : List (List α)} {R C : Nat}
    (r c : Int) (hr : r.toNat = R) (hc : c.toNat = C) (hv : Shape v R C)
    (hw : Shape w R C) :
    ∃ m, forLoop r (fun i m =>
        forLoop c (fun j m => do
          let x ← vecGet m i j
          let y ← vecGet w i j
          vecSet m i j (f x y)) m) v = .ok m ∧
      (Shape m R C ∧ ∀ i j, i < R → j < C → entry m i j = f (entry v i j) (entry w i j)) := by
  refine forLoop_fill r c hr hc
    (fun i j m => do
      let x ← vecGet m i j
      let y ← vecGet w i j
      vecSet m i j (f x y))
    (fun i j => f (entry v i j) (entry w i j)) v hv ?_
  intro i j m hi hj hsh he
  obtain ⟨m', hset, hsh', hval, hoth⟩ :=
    vecSet_of_shape (f (entry m i j) (entry w i j)) hsh hi hj
  refine ⟨m', ?_, hsh', ?_, hoth⟩
  · dsimp only
    rw [vecGet_of_shape hsh hi hj, ok_bind, vecGet_of_shape hw hi hj, ok_bind, hset]
  · rw [hval, he]

end elementwise

namespace S21Matrix

variable {α : Type}

/-- On well-formed operands of one shape `SumMatrix` returns; `a` keeps its dimensions
and every entry is the sum of the entries of the operands. -/
theorem sumMatrix_spec [Ring α] {a b : S21Matrix α} (ha : a.WF) (hb : b.WF)
    (hr : a.rows_ = b.rows_) (hc : a.cols_ = b.cols_) :
    ∃ s, a.SumMatrix b = .returned s ∧ s.rows_ = a.rows_ ∧ s.cols_ = a.cols_ ∧ s.WF ∧
      ∀ i j : Nat, (i : Int) < a.rows_ → (j : Int) < a.cols_ →
        s.cell i j = a.cell i j + b.cell i j := by
  have hvb : Shape b.matrix_ a.rows_.toNat a.cols_.toNat := by
    rw [hr, hc]; exact hb.2.2
  obtain ⟨m, hm, hsh, hent⟩ :=
    forLoop_zipCells (fun x y => x + y) a.rows_ a.cols_ rfl rfl ha.2.2 hvb
  refine ⟨{ a with matrix_ := m }, ?_, rfl, rfl, ⟨ha.1, ha.2.1, hsh⟩, ?_⟩
  · unfold SumMatrix
    rw [if_neg (by rw [hr, hc]; exact fun h => h.elim (fun h => h rfl) (fun h => h rfl)), hm]
  · intro i j hi hj
    exact hent i j (by omega) (by omega)

/-- On well-formed operands of one shape `SubMatrix` returns; `a` keeps its dimensions
and every entry is the difference of the entries of the operands. -/
theorem subMatrix_spec [Ring α] {a b : S21Matrix α} (ha : a.WF) (hb : b.WF)
    (hr : a.rows_ = b.rows_) (hc : a.cols_ = b.cols_) :
    ∃ s, a.SubMatrix b = .returned s ∧ s.rows_ = a.rows_ ∧ s.cols_ = a.cols_ ∧ s.WF ∧
      ∀ i j : Nat, (i : Int) < a.rows_ → (j : Int) < a.cols_ →
        s.cell i j = a.cell i j - b.cell i j := by
  have hvb : Shape b.matrix_ a.rows_.toNat a.cols_.toNat := by
    rw [hr, hc]; exact hb.2.2
  obtain ⟨m, hm, hsh, hent⟩ :=
    forLoop_zipCells (fun x y => x - y) a.rows_ a.cols_ rfl rfl ha.2.2 hvb
  refine ⟨{ a with matrix_ := m }, ?_, rfl, rfl, ⟨ha.1, ha.2.1, hsh⟩, ?_⟩
  · unfold SubMatrix
    rw [if_neg (by rw [hr, hc]; exact fun h => h.elim (fun h => h rfl) (fun h => h rfl)), hm]
  · intro i j hi hj
    exact hent i j (by omega) (by omega)

theorem sumMatrix_mismatch [Ring α] (a b : S21Matrix α)
    (h : a.rows_ ≠ b.rows_ ∨ a.cols_ ≠ b.cols_) :
    a.SumMatrix b = .threw .DimensionMismatch a := by
  unfold SumMatrix
  rw [if_pos h]

theorem subMatrix_mismatch [Ring α] (a b : S21Matrix α)
    (h : a.rows_ ≠ b.rows_ ∨ a.cols_ ≠ b.cols_) :
    a.SubMatrix b = .threw .DimensionMismatch a := by
  unfold SubMatrix
  rw [if_pos h]

/-- In range, `getElement` returns the stored entry. -/
theorem getElement_in_range [Zero α] {a : S21Matrix α} (hwf : a.WF) (row col : Int)
    (h : ¬ (row < 0 ∨ row ≥ a.rows_ ∨ col < 0 ∨ col ≥ a.cols_)) :
    a.getElement row col = .ok (a.cell row.toNat col.toNat) := by
  unfold getElement
  rw [if_neg h]
  exact vecGet_of_shape hwf.2.2 (by omega) (by omega)

/-- In range, `SetElement` returns, and it overwrites the one entry. -/
theorem setElement_in_range [Zero α] {a : S21Matrix α} (hwf : a.WF) (row col : Int)
    (value : α) (h : ¬ (row < 0 ∨ row ≥ a.rows_ ∨ col < 0 ∨ col ≥ a.cols_)) :
    ∃ s, a.SetElement row col value = .returned s ∧ s.rows_ = a.rows_ ∧
      s.cols_ = a.cols_ ∧ s.WF ∧ s.cell row.toNat col.toNat = value ∧
      ∀ p q, (p ≠ row.toNat ∨ q ≠ col.toNat) → s.cell p q = a.cell p q := by
  obtain ⟨m, hm, hsh, hval, hoth⟩ :=
    vecSet_of_shape value hwf.2.2 (i := row.toNat) (j := col.toNat) (by omega) (by omega)
  refine ⟨{ a with matrix_ := m }, ?_, rfl, rfl, ⟨hwf.1, hwf.2.1, hsh⟩, hval, hoth⟩
  unfold SetElement
  rw [if_neg h, hm]

end S21Matrix

/-! ## What a throwing mutator leaves behind -/

namespace S21Matrix

variable {α : Type}

theorem setRows_threw [Zero α] (a : S21Matrix α) (n : Int) (e : Error) (s : S21Matrix α)
    (h : a.SetRows n = .threw e s) : s = a := by
  unfold SetRows at h
  split at h
  · cases h; rfl
  · split at h
    · split at h
      · cases h; rfl
      · cases h
    · cases h

theorem setCols_threw [Zero α] (a : S21Matrix α) (c : Int) (e : Error) (s : S21Matrix α)
    (h : a.SetCols c = .threw e s) : s = a := by
  unfold SetCols at h
  split at h
  · cases h; rfl
  · split at h
    · split at h
      · cases h; rfl
      · cases h
    · cases h

theorem setElement_threw (a : S21Matrix α) (row col : Int) (value : α) (e : Error)
    (s : S21Matrix α) (h : a.SetElement row col value = .threw e s) : s = a := by
  unfold SetElement at h
  split at h
  · cases h; rfl
  · split at h
    · cases h; rfl
    · cases h

theorem sumMatrix_threw [Ring α] (a b : S21Matrix α) (e : Error) (s : S21Matrix α)
    (h : a.SumMatrix b = .threw e s) : s = a := by
  unfold SumMatrix at h
  split at h
  · cases h; rfl
  · split at h
    · cases h; rfl
    · cases h

theorem subMatrix_threw [Ring α] (a b : S21Matrix α) (e : Error) (s : S21Matrix α)
    (h : a.SubMatrix b = .threw e s) : s = a := by
  unfold SubMatrix at h
  split at h
  · cases h; rfl
  · split at h
    · cases h; rfl
    · cases h

end S21Matrix

/-! ## The recursive determinant is the determinant -/

namespace S21Matrix

variable {α : Type}

theorem foldl_add_eq_sum [Ring α] (f : Nat → α) (p : Nat) :
    (List.range p).foldl (fun acc k => acc + f k) 0 = ∑ k in Finset.range p, f k := by
  induction p with
  | zero => rfl
  | succ p ih =>
    rw [List.range_succ, List.foldl_append, ih, Finset.sum_range_succ]
    rfl

theorem succAbove_val {n : Nat} (i : Fin (n + 1)) (p : Fin n) :
    (i.succAbove p).val = skip i.val p.val := by
  unfold Fin.succAbove skip
  by_cases h : p.castSucc < i
  · rw [if_pos h, if_pos (by simpa [Fin.lt_def] using h)]
    rfl
  · rw [if_neg h, if_neg (by simpa [Fin.lt_def] using h)]
    rfl

/-- Deleting a row and a column is taking the submatrix along `Fin.succAbove`. -/
theorem toMatrix_deleteRowCol [Zero α] (a : S21Matrix α) (n : Nat) (i j : Fin (n + 1)) :
    toMatrix n (a.deleteRowCol i j) =
      (toMatrix (n + 1) a).submatrix i.succAbove j.succAbove := by
  ext p q
  show entry ((a.matrix_.eraseIdx i).map (fun r => r.eraseIdx j)) p q =
    entry a.matrix_ (i.succAbove p) (j.succAbove q)
  rw [entry_deleteRowCol, succAbove_val, succAbove_val]

/-- On a well-formed square matrix with a row, `determinantRecursive` returns the
determinant. -/
theorem determinantRecursive_eq_det [CommRing α] :
    ∀ (n : Nat) (a : S21Matrix α), a.WF → a.rows_ = (n + 1 : Nat) → a.cols_ = (n + 1 : Nat) →
      determinantRecursive a = .ok (Matrix.det (toMatrix (n + 1) a)) := by
  intro n
  induction n with
  | zero =>
    intro a hwf hr hc
    rw [determinantRecursive_one hwf (by omega) (by omega), Matrix.det_fin_one]
    rfl
  | succ k ih =>
    intro a hwf hr hc
    by_cases hk : k = 0
    · subst hk
      rw [determinantRecursive_two hwf (by omega) (by omega), Matrix.det_fin_two]
      rfl
    · rw [determinantRecursive_expand hwf hr hc (by omega)
        (fun j => if h : j < k + 1 + 1 then
          Matrix.det (toMatrix (k + 1) (a.deleteRowCol 0 j)) else 0)]
      · rw [Matrix.det_succ_row_zero, Finset.sum_range]
        congr 1
        apply Finset.sum_congr rfl
        intro j _
        rw [dif_pos j.isLt]
        have hsub := toMatrix_deleteRowCol a (k + 1) 0 j
        rw [Fin.succAbove_zero] at hsub
        rw [← hsub]
        rfl
      · intro j hj
        rw [dif_pos hj]
        apply ih
        · exact wf_deleteRowCol hwf (by omega) (by omega) (by push_cast; omega) (by omega)
        · show a.rows_ - 1 = _
          omega
        · show a.cols_ - 1 = _
          omega

theorem detValue_eq_det [CommRing α] {a : S21Matrix α} (hwf : a.WF) (n : Nat)
    (hr : a.rows_ = (n + 1 : Nat)) (hc : a.cols_ = (n + 1 : Nat)) :
    detValue a = Matrix.det (toMatrix (n + 1) a) := by
  unfold detValue
  rw [determinantRecursive_eq_det n a hwf hr hc]

/-- The matrix of Mathlib of a product is the product of the matrices. -/
theorem mulMatrix_toMatrix [CommRing α] {a b : S21Matrix α} (ha : a.WF) (hb : b.WF)
    (n : Nat) (hn : 1 ≤ n) (har : a.rows_ = n) (hac : a.cols_ = n) (hbr : b.rows_ = n)
    (hbc : b.cols_ = n) :
    ∃ c, a.MulMatrix b = .ok c ∧ c.rows_ = n ∧ c.cols_ = n ∧ c.WF ∧
      toMatrix n c = toMatrix n a * toMatrix n b := by
  obtain ⟨c, hc, hcr, hcc, hcwf, hent⟩ :=
    mulMatrix_spec ha hb (by rw [hac, hbr]) (by omega) (by omega)
  refine ⟨c, hc, by omega, by omega, hcwf, ?_⟩
  ext i j
  have h := hent i j (by omega) (by omega)
  have hp : a.cols_.toNat = n := by omega
  rw [hp] at h
  show c.cell i j = _
  rw [h, Matrix.mul_apply]
  unfold dot
  rw [foldl_add_eq_sum (fun k => a.cell i k * b.cell k j) n, Finset.sum_range]
  rfl

theorem shape_identity [Zero α] [One α] (n : Nat) :
    Shape (identity n : S21Matrix α).matrix_ n n := by
  constructor
  · show ((List.range n).map _).length = n
    rw [List.length_map, List.length_range]
  · intro row hrow
    obtain ⟨i, _, rfl⟩ := List.mem_map.mp hrow
    rw [List.length_map, List.length_range]

theorem cell_identity [Zero α] [One α] (n i j : Nat) (hi : i < n) (hj : j < n) :
    (identity n : S21Matrix α).cell i j = if i = j then 1 else 0 := by
  show entry ((List.range n).map _) i j = _
  unfold entry
  simp only [List.getD_eq_getElem?_getD, List.getElem?_map, List.getElem?_range hi,
    Option.map_some', Option.getD_some, List.getElem?_range hj]

/-- A well-formed `n × n` matrix whose matrix of Mathlib is `1` is the identity
matrix. -/
theorem eq_identity_of_toMatrix [Zero α] [One α] {c : S21Matrix α} (hwf : c.WF) (n : Nat)
    (hr : c.rows_ = n) (hc : c.cols_ = n) (h : toMatrix n c = 1) : c = identity n := by
  have hsh : Shape c.matrix_ n n := by
    have := hwf.2.2
    rw [hr, hc] at this
    simpa using this
  have hm : c.matrix_ = (identity n : S21Matrix α).matrix_ := by
    apply shape_ext hsh (shape_identity n)
    intro i j hi hj
    have hij := congrFun (congrFun h ⟨i, hi⟩) ⟨j, hj⟩
    rw [Matrix.one_apply] at hij
    have hid : (identity n : S21Matrix α).cell i j = if i = j then 1 else 0 :=
      cell_identity n i j hi hj
    show c.cell i j = (identity n : S21Matrix α).cell i j
    rw [hid]
    simpa [toMatrix, Fin.ext_iff] using hij
  cases c with
  | mk r k m =>
    simp only at hr hc hm
    subst hr hc hm
    rfl

/-- The steps of `InverseMatrix` give the adjugate scaled by the inverse of the
determinant. -/
theorem inverseMatrix_toMatrix [Field α] [DecidableEq α] {a : S21Matrix α} (hwf : a.WF)
    (n : Nat) (hr : a.rows_ = (n + 2 : Nat)) (hc : a.cols_ = (n + 2 : Nat))
    (hd0 : Matrix.det (toMatrix (n + 2) a) ≠ 0) :
    ∃ x, a.InverseMatrix = .ok x ∧ x.rows_ = (n + 2 : Nat) ∧ x.cols_ = (n + 2 : Nat) ∧
      x.WF ∧
      toMatrix (n + 2) x =
        (1 / Matrix.det (toMatrix (n + 2) a)) • Matrix.adjugate (toMatrix (n + 2) a) := by
  have hsq : a.rows_ = a.cols_ := by rw [hr, hc]
  have hdet : a.Determinant = .ok (Matrix.det (toMatrix (n + 2) a)) := by
    rw [determinant_square_eq a hsq]
    exact determinantRecursive_eq_det (n + 1) a hwf hr hc
  obtain ⟨c, t, x, hcc, _, _, hx, hxr, hxc, hxwf, hxent⟩ :=
    inverseMatrix_spec hwf hr hc (by omega) hdet hd0
  obtain ⟨c', hcc', _, _, _, hcent⟩ := calcComplements_spec hwf hr hc (by omega)
  rw [hcc] at hcc'
  cases hcc'
  refine ⟨x, hx, hxr, hxc, hxwf, ?_⟩
  ext i j
  show x.cell i j = _
  rw [hxent i j i.isLt j.isLt, hcent j i j.isLt i.isLt, Matrix.smul_apply,
    Matrix.adjugate_fin_succ_eq_det_submatrix, smul_eq_mul,
    detValue_eq_det
      (wf_deleteRowCol hwf (by omega) (by omega) (by omega) (by omega)) n
      (by show a.rows_ - 1 = _; omega) (by show a.cols_ - 1 = _; omega),
    toMatrix_deleteRowCol a (n + 1) j i]
  ring

end S21Matrix

/-! ## The representation invariant -/

namespace S21Matrix

variable {α : Type}

theorem invariant_empty : Invariant (empty : S21Matrix α) :=
  ⟨⟨Int.le_refl 0, Int.le_refl 0, rfl, fun _ h => (nomatch h)⟩, Or.inl ⟨rfl, rfl, rfl⟩⟩

theorem invariant_nonempty {s : S21Matrix α} (hwf : s.WF) (hr : 1 ≤ s.rows_)
    (hc : 1 ≤ s.cols_) : Invariant s :=
  ⟨hwf, Or.inr ⟨hr, hc⟩⟩

/-- A well-formed matrix with the dimensions of a matrix with the invariant has the
invariant. -/
theorem invariant_of_dims {a s : S21Matrix α} (ha : Invariant a) (hwf : s.WF)
    (hr : s.rows_ = a.rows_) (hc : s.cols_ = a.cols_) : Invariant s := by
  refine ⟨hwf, ?_⟩
  rcases ha.2 with ⟨h1, h2, _⟩ | ⟨h1, h2⟩
  · refine Or.inl ⟨by omega, by omega, ?_⟩
    have hlen := hwf.2.2.1
    rw [hr, h1] at hlen
    exact List.eq_nil_of_length_eq_zero hlen
  · exact Or.inr ⟨by omega, by omega⟩

theorem invariant_create [Zero α] {r c : Int} {m : S21Matrix α}
    (h : create r c = .ok m) : Invariant m := by
  by_cases hbad : r < 1 ∨ c < 1
  · rw [create_error hbad] at h
    cases h
  · rw [create_ok (by omega) (by omega)] at h
    cases h
    exact invariant_nonempty
      ⟨by show 0 ≤ r; omega, by show 0 ≤ c; omega, shape_replicate _ _ _⟩
      (by show 1 ≤ r; omega) (by show 1 ≤ c; omega)

theorem setRows_same [Zero α] (a : S21Matrix α) (n : Int) (hn : 0 < n) (h : n = a.rows_) :
    a.SetRows n = .returned a := by
  unfold SetRows
  rw [if_neg (by omega), if_neg (fun h' => h' h)]

theorem setRows_no_cols [Zero α] (a : S21Matrix α) (n : Int) (hn : 0 < n)
    (h : n ≠ a.rows_) (hc : a.cols_ < 1) : a.SetRows n = .threw .InvalidDimension a := by
  unfold SetRows
  rw [if_neg (by omega), if_pos h, create_error (Or.inr hc)]
  rfl

theorem setCols_same [Zero α] (a : S21Matrix α) (c : Int) (hc : 0 ≤ c) (h : c = a.cols_) :
    a.SetCols c = .returned a := by
  unfold SetCols
  rw [if_neg (by omega), if_neg (fun h' => h' h)]

theorem setCols_no_rows [Zero α] (a : S21Matrix α) (c : Int) (hc : 0 ≤ c)
    (h : c ≠ a.cols_) (hr : a.rows_ < 1 ∨ c < 1) :
    a.SetCols c = .threw .InvalidDimension a := by
  unfold SetCols
  rw [if_neg (by omega), if_pos h, create_error hr]
  rfl

theorem setRows_invariant [Zero α] {a : S21Matrix α} (ha : Invariant a) (n : Int) :
    Invariant (a.SetRows n).left := by
  cases h : a.SetRows n with
  | threw e s =>
    rw [setRows_threw a n e s h]
    exact ha
  | returned s =>
    show Invariant s
    by_cases hn : n ≤ 0
    · rw [setRows_nonpos a n hn] at h
      cases h
    by_cases hsame : n = a.rows_
    · rw [setRows_same a n (by omega) hsame] at h
      cases h
      exact ha
    by_cases hc : a.cols_ < 1
    · rw [setRows_no_cols a n (by omega) hsame hc] at h
      cases h
    · obtain ⟨s', hs', hr', hc', hwf', _⟩ := setRows_spec ha.1 (by omega) n (by omega)
      rw [hs'] at h
      cases h
      exact invariant_nonempty hwf' (by omega) (by omega)

theorem setCols_invariant [Zero α] {a : S21Matrix α} (ha : Invariant a) (c : Int) :
    Invariant (a.SetCols c).left := by
  cases h : a.SetCols c with
  | threw e s =>
    rw [setCols_threw a c e s h]
    exact ha
  | returned s =>
    show Invariant s
    by_cases hneg : c < 0
    · rw [setCols_neg a c hneg] at h
      cases h
    by_cases hsame : c = a.cols_
    · rw [setCols_same a c (by omega) hsame] at h
      cases h
      exact ha
    by_cases hr : a.rows_ < 1 ∨ c < 1
    · rw [setCols_no_rows a c (by omega) hsame hr] at h
      cases h
    · obtain ⟨s', hs', hr', hc', hwf', _⟩ := setCols_spec ha.1 (by omega) c (by omega)
      rw [hs'] at h
      cases h
      exact invariant_nonempty hwf' (by omega) (by omega)

theorem setDimensions_invariant [Zero α] {a : S21Matrix α} (ha : Invariant a) (r c : Int) :
    Invariant (a.SetDimensions r c).left := by
  have hrows := setRows_invariant ha r
  unfold SetDimensions
  cases h : a.SetRows r with
  | threw e s =>
    rw [h] at hrows
    exact hrows
  | returned s =>
    rw [h] at hrows
    exact setCols_invariant hrows c

theorem setElement_invariant [Zero α] {a : S21Matrix α} (ha : Invariant a) (row col : Int)
    (value : α) : Invariant (a.SetElement row col value).left := by
  cases h : a.SetElement row col value with
  | threw e s =>
    rw [setElement_threw a row col value e s h]
    exact ha
  | returned s =>
    show Invariant s
    by_cases hrange : row < 0 ∨ row ≥ a.rows_ ∨ col < 0 ∨ col ≥ a.cols_
    · unfold SetElement at h
      rw [if_pos hrange] at h
      cases h
    · obtain ⟨s', hs', hr', hc', hwf', _⟩ := setElement_in_range ha.1 row col value hrange
      rw [hs'] at h
      cases h
      exact invariant_of_dims ha hwf' hr' hc'

theorem sumMatrix_invariant [Ring α] {a b : S21Matrix α} (ha : Invariant a)
    (hb : Invariant b) : Invariant (a.SumMatrix b).left := by
  cases h : a.SumMatrix b with
  | threw e s =>
    rw [sumMatrix_threw a b e s h]
    exact ha
  | returned s =>
    show Invariant s
    by_cases hdim : a.rows_ ≠ b.rows_ ∨ a.cols_ ≠ b.cols_
    · rw [sumMatrix_mismatch a b hdim] at h
      cases h
    · obtain ⟨s', hs', hr', hc', hwf', _⟩ := sumMatrix_spec ha.1 hb.1
        (by by_contra h'; exact hdim (Or.inl h')) (by by_contra h'; exact hdim (Or.inr h'))
      rw [hs'] at h
      cases h
      exact invariant_of_dims ha hwf' hr' hc'

theorem subMatrix_invariant [Ring α] {a b : S21Matrix α} (ha : Invariant a)
    (hb : Invariant b) : Invariant (a.SubMatrix b).left := by
  cases h : a.SubMatrix b with
  | threw e s =>
    rw [subMatrix_threw a b e s h]
    exact ha
  | returned s =>
    show Invariant s
    by_cases hdim : a.rows_ ≠ b.rows_ ∨ a.cols_ ≠ b.cols_
    · rw [subMatrix_mismatch a b hdim] at h
      cases h
    · obtain ⟨s', hs', hr', hc', hwf', _⟩ := subMatrix_spec ha.1 hb.1
        (by by_contra h'; exact hdim (Or.inl h')) (by by_contra h'; exact hdim (Or.inr h'))
      rw [hs'] at h
      cases h
      exact invariant_of_dims ha hwf' hr' hc'

theorem mulNumber_invariant [Ring α] {a s : S21Matrix α} (ha : Invariant a) (num : α)
    (h : a.MulNumber num = .ok s) : Invariant s := by
  obtain ⟨s', hs', hr', hc', hwf', _⟩ := mulNumber_spec ha.1 num
  rw [hs'] at h
  cases h
  exact invariant_of_dims ha hwf' hr' hc'

theorem mulMatrix_invariant [Ring α] {a b s : S21Matrix α} (ha : Invariant a)
    (hb : Invariant b) (h : a.MulMatrix b = .ok s) : Invariant s := by
  by_cases hdim : a.cols_ = b.rows_
  · by_cases hbad : a.rows_ < 1 ∨ b.cols_ < 1
    · rw [mulMatrix_invalid a b hdim hbad] at h
      cases h
    · obtain ⟨s', hs', hr', hc', hwf', _⟩ :=
        mulMatrix_spec ha.1 hb.1 hdim (by omega) (by omega)
      rw [hs'] at h
      cases h
      exact invariant_nonempty hwf' (by omega) (by omega)
  · rw [mulMatrix_incompatible a b hdim] at h
    cases h

theorem transpose_invariant [Zero α] {a t : S21Matrix α} (ha : Invariant a)
    (h : a.Transpose = .ok t) : Invariant t := by
  by_cases hbad : a.cols_ < 1 ∨ a.rows_ < 1
  · unfold Transpose at h
    rw [create_error hbad] at h
    cases h
  · obtain ⟨t', ht', hr', hc', hwf', _⟩ := transpose_spec ha.1 (by omega) (by omega)
    rw [ht'] at h
    cases h
    exact invariant_nonempty hwf' (by omega) (by omega)

theorem calcComplements_invariant [Ring α] {a c : S21Matrix α} (ha : Invariant a)
    (h : a.CalcComplements = .ok c) : Invariant c := by
  have h0 := ha.1.1
  by_cases hsq : a.rows_ = a.cols_
  · by_cases hlt : a.rows_ < 1
    · rw [calcComplements_lt_one a hsq hlt] at h
      cases h
    by_cases h1 : a.rows_ = 1
    · rw [calcComplements_one a h1 (by omega)] at h
      cases h
    · obtain ⟨c', hc', hr', hcc', hwf', _⟩ :=
        calcComplements_spec ha.1 (n := a.rows_.toNat) (by omega) (by omega) (by omega)
      rw [hc'] at h
      cases h
      exact invariant_nonempty hwf' (by omega) (by omega)
  · rw [calcComplements_notSquare a hsq] at h
    cases h

theorem inverseMatrix_invariant [Field α] [DecidableEq α] {a x : S21Matrix α}
    (ha : Invariant a) (h : a.InverseMatrix = .ok x) : Invariant x := by
  have h0 := ha.1.1
  by_cases hsq : a.rows_ = a.cols_
  · have hdet := determinant_ok ha.1 hsq
    by_cases hd0 : detValue a = 0
    · unfold InverseMatrix at h
      rw [hdet, ok_bind, if_pos hd0] at h
      cases h
    · have hstep : a.InverseMatrix = (do
          let complements ← a.CalcComplements
          let transposed ← complements.Transpose
          transposed.MulNumber (1 / detValue a)) := by
        unfold InverseMatrix
        rw [hdet, ok_bind, if_neg hd0]
        simp only [pure_bind]
      by_cases hn0 : a.rows_ = 0
      · exfalso
        apply hd0
        have hz := determinantRecursive_zero a hn0 (by omega)
        unfold detValue
        rw [hz]
      by_cases hn1 : a.rows_ = 1
      · rw [hstep, calcComplements_one a hn1 (by omega), error_bind] at h
        cases h
      · obtain ⟨_, _, x', _, _, _, hx', hr', hc', hwf', _⟩ := inverseMatrix_spec ha.1
          (n := a.rows_.toNat) (by omega) (by omega) (by omega) hdet hd0
        rw [hx'] at h
        cases h
        exact invariant_nonempty hwf' (by omega) (by omega)
  · unfold InverseMatrix at h
    rw [determinant_notSquare a hsq] at h
    cases h

/-- Every reachable matrix has the representation invariant. -/
theorem Reachable.invariant [Field α] [DecidableEq α] {m : S21Matrix α}
    (h : Reachable m) : Invariant m := by
  induction h with
  | default => exact invariant_empty
  | dimensioned r c m hm => exact invariant_create hm
  | copy a _ ih => exact ih
  | moveNew a _ ih => exact ih
  | moveOld a _ _ => exact invariant_empty
  | copyAssigned a b _ _ _ ihb => exact ihb
  | moveAssignedNew a b _ _ _ ihb => exact ihb
  | moveAssignedOld a b _ _ _ _ => exact invariant_empty
  | setRows a n _ ih => exact setRows_invariant ih n
  | setCols a c _ ih => exact setCols_invariant ih c
  | setDimensions a r c _ ih => exact setDimensions_invariant ih r c
  | setElement a row col value _ ih => exact setElement_invariant ih row col value
  | sumMatrix a b _ _ iha ihb => exact sumMatrix_invariant iha ihb
  | subMatrix a b _ _ iha ihb => exact subMatrix_invariant iha ihb
  | mulNumber a s num _ hs ih => exact mulNumber_invariant ih num hs
  | mulMatrix a b s _ _ hs iha ihb => exact mulMatrix_invariant iha ihb hs
  | transpose a t _ ht ih => exact transpose_invariant ih ht
  | calcComplements a c _ hc ih => exact calcComplements_invariant ih hc
  | inverseMatrix a x _ hx ih => exact inverseMatrix_invariant ih hx

end S21Matrix

/-! ## The claims -/

namespace S21Matrix

variable {α : Type}

/-- C1. On a well-formed square `n × n` matrix with `n ≥ 1`, `Determinant` succeeds. It
returns `a[0][0]` when `n = 1`, `a[0][0] * a[1][1] - a[0][1] * a[1][0]` when `n = 2`, and
when `n > 2` the Laplace expansion along row `0`: the sum over `j < n` of
`(-1)^j * a[0][j] * Determinant(minor(0, j))`, where `minor(0, j)` succeeds and is `a`
with row `0` and column `j` deleted. -/
theorem determinant_laplace [Ring α] (a : S21Matrix α) (n : Nat) (hwf : a.WF)
    (hr : a.rows_ = n) (hc : a.cols_ = n) (hn : 1 ≤ n) :
    ∃ d, a.Determinant = .ok d ∧
      (n = 1 → d = a.cell 0 0) ∧
      (n = 2 → d = a.cell 0 0 * a.cell 1 1 - a.cell 0 1 * a.cell 1 0) ∧
      (2 < n → ∃ D : Nat → α,
        (∀ j : Nat, j < n → a.minor 0 j = .ok (a.deleteRowCol 0 j) ∧
          (a.deleteRowCol 0 j).Determinant = .ok (D j)) ∧
        d = ∑ j in Finset.range n, (-1) ^ j * a.cell 0 j * D j) := by
  have hsq : a.rows_ = a.cols_ := by rw [hr, hc]
  by_cases h1 : n = 1
  · refine ⟨a.cell 0 0, ?_, fun _ => rfl, fun h => by omega, fun h => by omega⟩
    rw [determinant_square_eq a hsq]
    exact determinantRecursive_one hwf (by omega) (by omega)
  by_cases h2 : n = 2
  · refine ⟨_, ?_, fun h => by omega, fun _ => rfl, fun h => by omega⟩
    rw [determinant_square_eq a hsq]
    exact determinantRecursive_two hwf (by omega) (by omega)
  have hD : ∀ j : Nat, j < n →
      (a.deleteRowCol 0 j).WF ∧ (a.deleteRowCol 0 j).rows_ = (a.deleteRowCol 0 j).cols_ := by
    intro j hj
    refine ⟨wf_deleteRowCol hwf (by omega) (by omega) (by push_cast; omega) (by omega), ?_⟩
    show a.rows_ - 1 = a.cols_ - 1
    omega
  refine ⟨_, ?_, fun h => by omega, fun h => by omega,
    fun _ => ⟨fun j => detValue (a.deleteRowCol 0 j), ?_, rfl⟩⟩
  · rw [determinant_square_eq a hsq]
    apply determinantRecursive_expand hwf hr hc (by omega)
    intro j hj
    rw [← determinant_square_eq _ (hD j hj).2]
    exact determinant_ok (hD j hj).1 (hD j hj).2
  · intro j hj
    refine ⟨?_, determinant_ok (hD j hj).1 (hD j hj).2⟩
    have := minor_eq hwf 0 j (by omega) (by omega)
      (by push_cast; omega) (by omega)
    simpa using this

/-- C1, on the two matrices of the tests: `[[1,2],[3,4]]` gives `-2` and
`[[6,1,1],[4,-2,5],[2,8,7]]` gives `-306`. -/
theorem determinant_laplace_witness :
    test2x2.Determinant = .ok (-2) ∧ test3x3.Determinant = .ok (-306) ∧ test3x3.WF ∧
    ∃ d, test3x3.Determinant = .ok d ∧
      ((3 : Nat) = 1 → d = test3x3.cell 0 0) ∧
      ((3 : Nat) = 2 →
        d = test3x3.cell 0 0 * test3x3.cell 1 1 - test3x3.cell 0 1 * test3x3.cell 1 0) ∧
      (2 < 3 → ∃ D : Nat → ℤ,
        (∀ j : Nat, j < 3 → test3x3.minor 0 j = .ok (test3x3.deleteRowCol 0 j) ∧
          (test3x3.deleteRowCol 0 j).Determinant = .ok (D j)) ∧
        d = ∑ j in Finset.range 3, (-1) ^ j * test3x3.cell 0 j * D j) :=
  ⟨rfl, rfl, by decide, determinant_laplace test3x3 3 (by decide) rfl rfl (by decide)⟩

/-- C2, at the invertible `1 × 1` matrix `[[5]]`: `Determinant` returns `5`, which is not
`0`, and `InverseMatrix` fails: `CalcComplements` calls `minor(0, 0)`, whose construction
of a `0 × 0` result throws. -/
theorem inverseMatrix_one_by_one :
    oneByOne.WF ∧ oneByOne.Determinant = .ok 5 ∧
      oneByOne.CalcComplements = .error .InvalidDimension ∧
      oneByOne.InverseMatrix = .error .InvalidDimension :=
  ⟨by decide, rfl, rfl, rfl⟩

/-- C3. On a well-formed matrix, `InverseMatrix` fails with `NotSquare` exactly when
`rows_ ≠ cols_`, and fails with `SingularMatrix` exactly when the matrix is square and
`Determinant` returns `0`; a matrix that is not square never reports `SingularMatrix`. -/
theorem inverseMatrix_errors [Field α] [DecidableEq α] (a : S21Matrix α) (hwf : a.WF) :
    (a.InverseMatrix = .error .NotSquare ↔ a.rows_ ≠ a.cols_) ∧
    (a.InverseMatrix = .error .SingularMatrix ↔
      a.rows_ = a.cols_ ∧ a.Determinant = .ok 0) ∧
    (a.rows_ ≠ a.cols_ → a.InverseMatrix ≠ .error .SingularMatrix) := by
  by_cases hsq : a.rows_ = a.cols_
  · have hdet := determinant_ok hwf hsq
    by_cases hd0 : detValue a = 0
    · have hinv : a.InverseMatrix = .error .SingularMatrix := by
        unfold InverseMatrix
        rw [hdet, ok_bind, if_pos hd0]
        rfl
      rw [hinv, hdet, hd0]
      exact ⟨⟨fun h => (nomatch h), fun h => absurd hsq h⟩, ⟨fun _ => ⟨hsq, rfl⟩, fun _ => rfl⟩,
        fun h => absurd hsq h⟩
    · have hne : a.InverseMatrix ≠ .error .NotSquare ∧
          a.InverseMatrix ≠ .error .SingularMatrix := by
        have hstep : a.InverseMatrix = (do
            let complements ← a.CalcComplements
            let transposed ← complements.Transpose
            transposed.MulNumber (1 / detValue a)) := by
          unfold InverseMatrix
          rw [hdet, ok_bind, if_neg hd0]
          simp only [pure_bind]
        have h0 := hwf.1
        by_cases hn0 : a.rows_ = 0
        · exfalso
          apply hd0
          have hz := determinantRecursive_zero a hn0 (by omega)
          unfold detValue
          rw [hz]
        by_cases hn1 : a.rows_ = 1
        · rw [hstep, calcComplements_one a hn1 (by omega), error_bind]
          exact ⟨fun h => (nomatch h), fun h => (nomatch h)⟩
        · obtain ⟨c, t, x, _, _, _, hx, _⟩ := inverseMatrix_spec hwf
            (n := a.rows_.toNat) (by omega) (by omega) (by omega) hdet hd0
          rw [hx]
          exact ⟨fun h => (nomatch h), fun h => (nomatch h)⟩
      refine ⟨⟨fun h => absurd h hne.1, fun h => absurd hsq h⟩, ⟨fun h => absurd h hne.2, ?_⟩,
        fun h => absurd hsq h⟩
      rintro ⟨_, h⟩
      rw [hdet] at h
      exact absurd (Except.ok.inj h) hd0
  · have hinv : a.InverseMatrix = .error .NotSquare := by
      unfold InverseMatrix
      rw [determinant_notSquare a hsq]
      rfl
    rw [hinv]
    exact ⟨⟨fun _ => hsq, fun _ => rfl⟩, ⟨fun h => (nomatch h), fun h => absurd h.1 hsq⟩,
      fun _ h => (nomatch h)⟩

/-- C3 on a `1 × 2` matrix, which reports `NotSquare`. -/
theorem inverseMatrix_errors_witness :
    oneByTwo.WF ∧ oneByTwo.InverseMatrix = .error .NotSquare ∧
    ((oneByTwo.InverseMatrix = .error .NotSquare ↔ oneByTwo.rows_ ≠ oneByTwo.cols_) ∧
      (oneByTwo.InverseMatrix = .error .SingularMatrix ↔
        oneByTwo.rows_ = oneByTwo.cols_ ∧ oneByTwo.Determinant = .ok 0) ∧
      (oneByTwo.rows_ ≠ oneByTwo.cols_ →
        oneByTwo.InverseMatrix ≠ .error .SingularMatrix)) :=
  ⟨by decide, rfl, inverseMatrix_errors oneByTwo (by decide)⟩

/-- C4. On a well-formed square `n × n` matrix with `n ≥ 2` whose `Determinant` is
`d ≠ 0`, `InverseMatrix` succeeds and returns `Transpose(CalcComplements(a))` scaled by
`1 / d`: `result[i][j] = C[j][i] * (1 / d)` for the cofactor matrix `C`. (The model of
`InverseMatrix` has no output but the result: the C++ member assigns to no field of
`a`.) -/
theorem inverseMatrix_adjugate [Field α] [DecidableEq α] (a : S21Matrix α) (n : Nat)
    (d : α) (hwf : a.WF) (hr : a.rows_ = n) (hc : a.cols_ = n) (hn : 2 ≤ n)
    (hd : a.Determinant = .ok d) (hd0 : d ≠ 0) :
    ∃ c t x, a.CalcComplements = .ok c ∧ c.Transpose = .ok t ∧
      t.MulNumber (1 / d) = .ok x ∧ a.InverseMatrix = .ok x ∧
      x.rows_ = n ∧ x.cols_ = n ∧ x.WF ∧
      ∀ i j, i < n → j < n → x.cell i j = c.cell j i * (1 / d) :=
  inverseMatrix_spec hwf hr hc hn hd hd0

/-- C4 on the matrix of the test: `[[4,7],[2,6]]` gives `[[0.6,-0.7],[-0.2,0.4]]`. -/
theorem inverseMatrix_adjugate_witness :
    testInv.InverseMatrix = .ok ⟨2, 2, [[3 / 5, -7 / 10], [-1 / 5, 2 / 5]]⟩ ∧
    testInv.WF ∧ testInv.Determinant = .ok 10 ∧ (10 : ℚ) ≠ 0 ∧
    ∃ c t x, testInv.CalcComplements = .ok c ∧ c.Transpose = .ok t ∧
      t.MulNumber (1 / 10) = .ok x ∧ testInv.InverseMatrix = .ok x ∧
      x.rows_ = (2 : Nat) ∧ x.cols_ = (2 : Nat) ∧ x.WF ∧
      ∀ i j, i < 2 → j < 2 → x.cell i j = c.cell j i * (1 / 10) :=
  ⟨by with_unfolding_all rfl, by decide, by with_unfolding_all rfl, by norm_num,
    inverseMatrix_adjugate testInv 2 10 (by decide) rfl rfl (by decide)
      (by with_unfolding_all rfl) (by norm_num)⟩

/-- C5. On a well-formed square `n × n` matrix with `n ≥ 2`, `CalcComplements` succeeds
and returns a well-formed `n × n` matrix `C` with
`C[i][j] = (-1)^(i+j) * Determinant(minor(i, j))` for all `i, j < n`, where `minor(i, j)`
succeeds and is the `(n-1) × (n-1)` matrix left when row `i` and column `j` of `a` are
deleted, the other entries in their order. (The model of `CalcComplements` has no output
but the result: the C++ member assigns to no field of `a`.) -/
theorem calcComplements_cofactors [Ring α] (a : S21Matrix α) (n : Nat) (hwf : a.WF)
    (hr : a.rows_ = n) (hc : a.cols_ = n) (hn : 2 ≤ n) :
    ∃ c, a.CalcComplements = .ok c ∧ c.rows_ = n ∧ c.cols_ = n ∧ c.WF ∧
      ∀ i j : Nat, i < n → j < n →
        ∃ d, a.minor i j = .ok (a.deleteRowCol i j) ∧
          (a.deleteRowCol i j).rows_ = (n : Int) - 1 ∧
          (a.deleteRowCol i j).cols_ = (n : Int) - 1 ∧
          (a.deleteRowCol i j).matrix_ =
            (a.matrix_.eraseIdx i).map (fun r => r.eraseIdx j) ∧
          (a.deleteRowCol i j).Determinant = .ok d ∧
          c.cell i j = (-1) ^ (i + j) * d := by
  obtain ⟨c, hcc, hcr, hccol, hcwf, hent⟩ := calcComplements_spec hwf hr hc hn
  refine ⟨c, hcc, hcr, hccol, hcwf, ?_⟩
  intro i j hi hj
  refine ⟨detValue (a.deleteRowCol i j),
    minor_eq hwf i j (by omega) (by omega) (by omega) (by omega), ?_, ?_, rfl, ?_,
    hent i j hi hj⟩
  · show a.rows_ - 1 = _
    rw [hr]
  · show a.cols_ - 1 = _
    rw [hc]
  · apply determinant_ok
      (wf_deleteRowCol hwf (by omega) (by omega) (by omega) (by omega))
    show a.rows_ - 1 = a.cols_ - 1
    rw [hr, hc]

/-- C5 on the `3 × 3` matrix of the tests, with its cofactor matrix. -/
theorem calcComplements_cofactors_witness :
    test3x3.CalcComplements = .ok ⟨3, 3, [[-54, -18, 36], [1, 40, -46], [7, -26, -16]]⟩ ∧
    test3x3.WF ∧
    ∃ c, test3x3.CalcComplements = .ok c ∧ c.rows_ = (3 : Nat) ∧ c.cols_ = (3 : Nat) ∧
      c.WF ∧
      ∀ i j : Nat, i < 3 → j < 3 →
        ∃ d, test3x3.minor i j = .ok (test3x3.deleteRowCol i j) ∧
          (test3x3.deleteRowCol i j).rows_ = ((3 : Nat) : Int) - 1 ∧
          (test3x3.deleteRowCol i j).cols_ = ((3 : Nat) : Int) - 1 ∧
          (test3x3.deleteRowCol i j).matrix_ =
            (test3x3.matrix_.eraseIdx i).map (fun r => r.eraseIdx j) ∧
          (test3x3.deleteRowCol i j).Determinant = .ok d ∧
          c.cell i j = (-1) ^ (i + j) * d :=
  ⟨rfl, by decide, calcComplements_cofactors test3x3 3 (by decide) rfl rfl (by decide)⟩

/-- C6, as the claim has it, fails on the default-constructed matrix: it is square, and
`CalcComplements` fails (the construction of the `0 × 0` result throws). -/
theorem calcComplements_empty_fails :
    (empty : S21Matrix ℤ).rows_ = (empty : S21Matrix ℤ).cols_ ∧
      (empty : S21Matrix ℤ).CalcComplements = .error .InvalidDimension :=
  ⟨rfl, rfl⟩

/-- C6, amended. On a well-formed matrix, `CalcComplements` fails with `NotSquare`
exactly when `rows_ ≠ cols_`; on a square matrix with two rows or more it succeeds and
returns a matrix of the dimensions of `a`; on a square matrix without rows (the
default-constructed one) it fails with `InvalidDimension`. -/
theorem calcComplements_errors [Ring α] (a : S21Matrix α) (hwf : a.WF) :
    (a.CalcComplements = .error .NotSquare ↔ a.rows_ ≠ a.cols_) ∧
    (a.rows_ = a.cols_ → 2 ≤ a.rows_ →
      ∃ c, a.CalcComplements = .ok c ∧ c.rows_ = a.rows_ ∧ c.cols_ = a.cols_) ∧
    (a.rows_ = a.cols_ → a.rows_ = 0 → a.CalcComplements = .error .InvalidDimension) := by
  have h0 := hwf.1
  refine ⟨⟨?_, calcComplements_notSquare a⟩, ?_, ?_⟩
  · intro h hsq
    by_cases hlt : a.rows_ < 1
    · rw [calcComplements_lt_one a hsq hlt] at h
      cases h
    by_cases h1 : a.rows_ = 1
    · rw [calcComplements_one a h1 (by omega)] at h
      cases h
    · obtain ⟨c, hc, _⟩ := calcComplements_spec hwf (n := a.rows_.toNat)
        (by omega) (by omega) (by omega)
      rw [hc] at h
      cases h
  · intro hsq h2
    obtain ⟨c, hc, hcr, hcc, _⟩ := calcComplements_spec hwf (n := a.rows_.toNat)
      (by omega) (by omega) (by omega)
    exact ⟨c, hc, by omega, by omega⟩
  · intro hsq hz
    exact calcComplements_lt_one a hsq (by omega)

/-- C6, amended, on the `3 × 3` matrix of the tests. -/
theorem calcComplements_errors_witness :
    test3x3.WF ∧
    ((test3x3.CalcComplements = .error .NotSquare ↔ test3x3.rows_ ≠ test3x3.cols_) ∧
      (test3x3.rows_ = test3x3.cols_ → 2 ≤ test3x3.rows_ →
        ∃ c, test3x3.CalcComplements = .ok c ∧ c.rows_ = test3x3.rows_ ∧
          c.cols_ = test3x3.cols_) ∧
      (test3x3.rows_ = test3x3.cols_ → test3x3.rows_ = 0 →
        test3x3.CalcComplements = .error .InvalidDimension)) :=
  ⟨by decide, calcComplements_errors test3x3 (by decide)⟩

/-- C7, as the claim has it, fails: on the default-constructed matrix `Determinant` and
`determinantRecursive` return `0` (the empty sum of the expansion), not `1`. -/
theorem determinant_empty_not_one :
    (empty : S21Matrix ℤ).Determinant = .ok 0 ∧
      (empty : S21Matrix ℤ).determinantRecursive = .ok 0 ∧
      (empty : S21Matrix ℤ).Determinant ≠ .ok 1 ∧
      (empty : S21Matrix ℤ).determinantRecursive ≠ .ok 1 :=
  ⟨rfl, rfl, fun h => absurd (Except.ok.inj h) (by decide),
    fun h => absurd (Except.ok.inj h) (by decide)⟩

/-- C7, amended. The determinant of a `0 × 0` matrix is `0`: `Determinant` and the
recursive helper `determinantRecursive`, applied to a matrix with zero rows and zero
columns, return `0`. -/
theorem determinant_zero_by_zero [Ring α] (a : S21Matrix α) (hr : a.rows_ = 0)
    (hc : a.cols_ = 0) : a.Determinant = .ok 0 ∧ a.determinantRecursive = .ok 0 := by
  have h := determinantRecursive_zero a hr (by omega)
  refine ⟨?_, h⟩
  rw [determinant_square_eq a (by rw [hr, hc])]
  exact h

/-- C7, amended, on the default-constructed matrix. -/
theorem determinant_zero_by_zero_witness :
    (empty : S21Matrix ℤ).rows_ = 0 ∧ (empty : S21Matrix ℤ).cols_ = 0 ∧
      ((empty : S21Matrix ℤ).Determinant = .ok 0 ∧
        (empty : S21Matrix ℤ).determinantRecursive = .ok 0) :=
  ⟨rfl, rfl, determinant_zero_by_zero empty rfl rfl⟩

/-- C8. On a well-formed matrix, `Determinant` fails exactly when `rows_ ≠ cols_`, the
failure is `NotSquare`, and on every square matrix it returns a value: the recursion
through the minors meets no failing construction and no access outside the storage. -/
theorem determinant_fails_iff [Ring α] (a : S21Matrix α) (hwf : a.WF) :
    ((∃ e, a.Determinant = .error e) ↔ a.rows_ ≠ a.cols_) ∧
    (∀ e, a.Determinant = .error e → e = .NotSquare) ∧
    (a.rows_ = a.cols_ → ∃ d, a.Determinant = .ok d) := by
  by_cases hsq : a.rows_ = a.cols_
  · rw [determinant_ok hwf hsq]
    exact ⟨⟨fun ⟨_, h⟩ => (nomatch h), fun h => absurd hsq h⟩, fun _ h => (nomatch h),
      fun _ => ⟨_, rfl⟩⟩
  · rw [determinant_notSquare a hsq]
    exact ⟨⟨fun _ => hsq, fun _ => ⟨_, rfl⟩⟩, fun _ h => (Except.error.inj h).symm,
      fun h => absurd h hsq⟩

/-- C8 on the `3 × 3` matrix of the tests. -/
theorem determinant_fails_iff_witness :
    test3x3.WF ∧
    (((∃ e, test3x3.Determinant = .error e) ↔ test3x3.rows_ ≠ test3x3.cols_) ∧
      (∀ e, test3x3.Determinant = .error e → e = .NotSquare) ∧
      (test3x3.rows_ = test3x3.cols_ → ∃ d, test3x3.Determinant = .ok d)) :=
  ⟨by decide, determinant_fails_iff test3x3 (by decide)⟩

/-- C9, as the claim has it, fails on two default-constructed matrices: the dimensions
agree (`cols_ = rows_ = 0`), and `MulMatrix` fails (the construction of the `0 × 0`
result throws). -/
theorem mulMatrix_empty_fails :
    (empty : S21Matrix ℤ).cols_ = (empty : S21Matrix ℤ).rows_ ∧
      (empty : S21Matrix ℤ).MulMatrix empty = .error .InvalidDimension :=
  ⟨rfl, rfl⟩

/-- C9, amended. On well-formed operands, `MulMatrix` fails with
`IncompatibleDimensions` exactly when `a.cols_ ≠ b.rows_`; when `a.cols_ = b.rows_`, `a`
has a row and `b` has a column, it succeeds and the result has `a.rows_` rows and
`b.cols_` columns; when `a.cols_ = b.rows_` and `a` has no row or `b` no column (a
default-constructed operand), it fails with `InvalidDimension`. -/
theorem mulMatrix_errors [Ring α] (a b : S21Matrix α) (ha : a.WF) (hb : b.WF) :
    (a.MulMatrix b = .error .IncompatibleDimensions ↔ a.cols_ ≠ b.rows_) ∧
    (a.cols_ = b.rows_ → 1 ≤ a.rows_ → 1 ≤ b.cols_ →
      ∃ c, a.MulMatrix b = .ok c ∧ c.rows_ = a.rows_ ∧ c.cols_ = b.cols_) ∧
    (a.cols_ = b.rows_ → (a.rows_ < 1 ∨ b.cols_ < 1) →
      a.MulMatrix b = .error .InvalidDimension) := by
  refine ⟨⟨?_, mulMatrix_incompatible a b⟩, ?_, mulMatrix_invalid a b⟩
  · intro h hdim
    by_cases hlt : a.rows_ < 1 ∨ b.cols_ < 1
    · rw [mulMatrix_invalid a b hdim hlt] at h
      cases h
    · obtain ⟨c, hc, _⟩ := mulMatrix_spec ha hb hdim (by omega) (by omega)
      rw [hc] at h
      cases h
  · intro hdim hR hC
    obtain ⟨c, hc, hcr, hcc, _⟩ := mulMatrix_spec ha hb hdim hR hC
    exact ⟨c, hc, hcr, hcc⟩

/-- C9, amended, on the operands of the test `MulMatrix`. -/
theorem mulMatrix_errors_witness :
    test2x2.WF ∧ testRight.WF ∧
    ((test2x2.MulMatrix testRight = .error .IncompatibleDimensions ↔
        test2x2.cols_ ≠ testRight.rows_) ∧
      (test2x2.cols_ = testRight.rows_ → 1 ≤ test2x2.rows_ → 1 ≤ testRight.cols_ →
        ∃ c, test2x2.MulMatrix testRight = .ok c ∧ c.rows_ = test2x2.rows_ ∧
          c.cols_ = testRight.cols_) ∧
      (test2x2.cols_ = testRight.rows_ → (test2x2.rows_ < 1 ∨ testRight.cols_ < 1) →
        test2x2.MulMatrix testRight = .error .InvalidDimension)) :=
  ⟨by decide, by decide, mulMatrix_errors test2x2 testRight (by decide) (by decide)⟩

/-- C10. For well-formed `a` of shape `m × p` and `b` of shape `p × q` with
`m, p, q ≥ 1`, `MulMatrix` succeeds and the new value of the left operand is the
well-formed `m × q` matrix whose entry `(i, j)` is the sum of `a[i][k] * b[k][j]`,
accumulated from `0` in the order `k = 0, 1, ..., p - 1` (which is the sum over
`k < p`). (`other` is a `const` reference: the model has no output for it.) -/
theorem mulMatrix_entries [Ring α] (a b : S21Matrix α) (m p q : Nat) (ha : a.WF)
    (hb : b.WF) (har : a.rows_ = m) (hac : a.cols_ = p) (hbr : b.rows_ = p)
    (hbc : b.cols_ = q) (hm : 1 ≤ m) (hp : 1 ≤ p) (hq : 1 ≤ q) :
    ∃ c, a.MulMatrix b = .ok c ∧ c.rows_ = m ∧ c.cols_ = q ∧ c.WF ∧
      ∀ i j : Nat, i < m → j < q →
        c.cell i j = (List.range p).foldl (fun acc k => acc + a.cell i k * b.cell k j) 0 ∧
        c.cell i j = ∑ k in Finset.range p, a.cell i k * b.cell k j := by
  obtain ⟨c, hc, hcr, hcc, hcwf, hent⟩ :=
    mulMatrix_spec ha hb (by rw [hac, hbr]) (by omega) (by omega)
  have hp' : a.cols_.toNat = p := by omega
  refine ⟨c, hc, by omega, by omega, hcwf, ?_⟩
  intro i j hi hj
  have h := hent i j (by omega) (by omega)
  rw [hp'] at h
  refine ⟨h, ?_⟩
  rw [h]
  exact foldl_add_eq_sum (fun k => a.cell i k * b.cell k j) p

/-- C10 on the operands of the test: `[[1,2],[3,4]] * [[2,0],[1,2]] = [[4,4],[10,8]]`. -/
theorem mulMatrix_entries_witness :
    test2x2.MulMatrix testRight = .ok ⟨2, 2, [[4, 4], [10, 8]]⟩ ∧
    test2x2.WF ∧ testRight.WF ∧
    ∃ c, test2x2.MulMatrix testRight = .ok c ∧ c.rows_ = (2 : Nat) ∧ c.cols_ = (2 : Nat) ∧
      c.WF ∧
      ∀ i j : Nat, i < 2 → j < 2 →
        c.cell i j =
          (List.range 2).foldl (fun acc k => acc + test2x2.cell i k * testRight.cell k j) 0 ∧
        c.cell i j = ∑ k in Finset.range 2, test2x2.cell i k * testRight.cell k j :=
  ⟨rfl, by decide, by decide,
    mulMatrix_entries test2x2 testRight 2 2 2 (by decide) (by decide) rfl rfl rfl rfl
      (by decide) (by decide) (by decide)⟩

/-- C11, as the claim has it, fails on the `2 × 2` matrix of the tests: `0` is not
negative, and `SetCols(0)` fails (the construction of the temporary with zero columns
throws) and leaves the matrix as it was, with two columns. -/
theorem setCols_zero_fails :
    ¬ ((0 : Int) < 0) ∧ test2x2.SetCols 0 = .threw .InvalidDimension test2x2 :=
  ⟨by decide, rfl⟩

/-- C11, amended. On a well-formed matrix with a row and a column, `SetCols(c)` fails
exactly when `c ≤ 0`, the failure is `InvalidDimension` and leaves the matrix as it was;
in particular `SetCols(0)` is not permitted. For `c > 0` it returns, with the same row
count and `c` columns. -/
theorem setCols_fails_iff [Zero α] (a : S21Matrix α) (c : Int) (hwf : a.WF)
    (hR : 1 ≤ a.rows_) (hC : 1 ≤ a.cols_) :
    ((∃ e s, a.SetCols c = .threw e s) ↔ c ≤ 0) ∧
    (c ≤ 0 → a.SetCols c = .threw .InvalidDimension a) ∧
    (0 < c → ∃ s, a.SetCols c = .returned s ∧ s.rows_ = a.rows_ ∧ s.cols_ = c) := by
  have hfail : c ≤ 0 → a.SetCols c = .threw .InvalidDimension a := by
    intro hc
    by_cases h0 : c = 0
    · rw [h0]; exact setCols_zero a (by omega)
    · exact setCols_neg a c (by omega)
  have hok : 0 < c → ∃ s, a.SetCols c = .returned s ∧ s.rows_ = a.rows_ ∧ s.cols_ = c := by
    intro hc
    obtain ⟨s, hs, hsr, hsc, _⟩ := setCols_spec hwf hR c hc
    exact ⟨s, hs, hsr, hsc⟩
  refine ⟨⟨?_, fun hc => ⟨_, _, hfail hc⟩⟩, hfail, hok⟩
  rintro ⟨e, s, h⟩
  by_contra hc
  obtain ⟨s', hs', _⟩ := hok (by omega)
  rw [hs'] at h
  cases h

/-- C11, amended, on the `2 × 2` matrix of the tests with `c = 0`. -/
theorem setCols_fails_iff_witness :
    test2x2.WF ∧ 1 ≤ test2x2.rows_ ∧ 1 ≤ test2x2.cols_ ∧
    (((∃ e s, test2x2.SetCols 0 = .threw e s) ↔ (0 : Int) ≤ 0) ∧
      ((0 : Int) ≤ 0 → test2x2.SetCols 0 = .threw .InvalidDimension test2x2) ∧
      ((0 : Int) < 0 →
        ∃ s, test2x2.SetCols 0 = .returned s ∧ s.rows_ = test2x2.rows_ ∧ s.cols_ = 0)) :=
  ⟨by decide, by decide, by decide,
    setCols_fails_iff test2x2 0 (by decide) (by decide) (by decide)⟩

/-- C12, at the `2 × 2` matrix `[[1,2],[3,4]]` and the call `SetDimensions(3, -1)`: the
call fails with `InvalidDimension`, and the matrix it leaves has three rows: `SetRows(3)`
had returned before `SetCols(-1)` threw. -/
theorem setDimensions_not_atomic :
    test2x2.WF ∧
      test2x2.SetDimensions 3 (-1) =
        .threw .InvalidDimension ⟨3, 2, [[1, 2], [3, 4], [0, 0]]⟩ ∧
      (⟨3, 2, [[1, 2], [3, 4], [0, 0]]⟩ : S21Matrix ℤ) ≠ test2x2 :=
  ⟨by decide, rfl, by decide⟩

/-- C13. On a well-formed matrix with a row and a column, `SetDimensions(r, c)` with
`r ≥ 1` and `c ≥ 1` returns, with the result of `SetRows(r)` followed by `SetCols(c)`:
a well-formed `r × c` matrix whose entry `(i, j)` is the old `a[i][j]` when `i` is below
the old row count and `j` below the old column count, and `0` otherwise. -/
theorem setDimensions_resize [Zero α] (a : S21Matrix α) (r c : Int) (hwf : a.WF)
    (_hR : 1 ≤ a.rows_) (hC : 1 ≤ a.cols_) (hr : 1 ≤ r) (hc : 1 ≤ c) :
    ∃ s1 s, a.SetRows r = .returned s1 ∧ s1.SetCols c = .returned s ∧
      a.SetDimensions r c = .returned s ∧ s.rows_ = r ∧ s.cols_ = c ∧ s.WF ∧
      ∀ i j : Nat, (i : Int) < r → (j : Int) < c →
        s.cell i j = if (i : Int) < a.rows_ ∧ (j : Int) < a.cols_ then a.cell i j else 0 := by
  obtain ⟨s1, h1, h1r, h1c, h1wf, h1ent⟩ := setRows_spec hwf hC r (by omega)
  obtain ⟨s, h2, h2r, h2c, h2wf, h2ent⟩ := setCols_spec h1wf (by omega) c (by omega)
  refine ⟨s1, s, h1, h2, ?_, by omega, h2c, h2wf, ?_⟩
  · unfold SetDimensions
    rw [h1]
    exact h2
  · intro i j hi hj
    rw [h2ent i j, h1ent i j]
    by_cases hcond : (i : Int) < a.rows_ ∧ (j : Int) < a.cols_
    · rw [if_pos hcond, if_pos (by omega), if_pos (by omega)]
    · rw [if_neg hcond]
      by_cases h2 : (i : Int) < s1.rows_ ∧ (j : Int) < min s1.cols_ c
      · rw [if_pos h2, if_neg (by omega)]
      · rw [if_neg h2]

/-- C13 on the matrix of the scenario: the `2 × 2` matrix with `(0,0) = 1` and
`(1,1) = 4`, resized to `3 × 3`, keeps the two entries and is `0` elsewhere. -/
theorem setDimensions_resize_witness :
    testResize.SetDimensions 3 3 = .returned ⟨3, 3, [[1, 0, 0], [0, 4, 0], [0, 0, 0]]⟩ ∧
    testResize.WF ∧ 1 ≤ testResize.rows_ ∧ 1 ≤ testResize.cols_ ∧
    ∃ s1 s, testResize.SetRows 3 = .returned s1 ∧ s1.SetCols 3 = .returned s ∧
      testResize.SetDimensions 3 3 = .returned s ∧ s.rows_ = 3 ∧ s.cols_ = 3 ∧ s.WF ∧
      ∀ i j : Nat, (i : Int) < 3 → (j : Int) < 3 →
        s.cell i j =
          if (i : Int) < testResize.rows_ ∧ (j : Int) < testResize.cols_ then
            testResize.cell i j
          else 0 :=
  ⟨rfl, by decide, by decide, by decide,
    setDimensions_resize testResize 3 3 (by decide) (by decide) (by decide) (by decide)
      (by decide)⟩

/-- C14. On a well-formed matrix with a row and a column, `SetRows(n)` fails exactly
when `n ≤ 0`, with `InvalidDimension` (and leaves the matrix as it was); for `n > 0` it
returns a well-formed matrix with `n` rows and the same column count, whose rows below
`min(rows_, n)` are those of `a` and whose added rows are zero. -/
theorem setRows_resize [Zero α] (a : S21Matrix α) (n : Int) (hwf : a.WF)
    (_hR : 1 ≤ a.rows_) (hC : 1 ≤ a.cols_) :
    ((∃ e s, a.SetRows n = .threw e s) ↔ n ≤ 0) ∧
    (n ≤ 0 → a.SetRows n = .threw .InvalidDimension a) ∧
    (0 < n → ∃ s, a.SetRows n = .returned s ∧ s.rows_ = n ∧ s.cols_ = a.cols_ ∧ s.WF ∧
      (∀ i j : Nat, (i : Int) < min a.rows_ n → (j : Int) < a.cols_ →
        s.cell i j = a.cell i j) ∧
      (∀ i j : Nat, a.rows_ ≤ (i : Int) → (i : Int) < n → (j : Int) < a.cols_ →
        s.cell i j = 0)) := by
  have hok : 0 < n → ∃ s, a.SetRows n = .returned s ∧ s.rows_ = n ∧ s.cols_ = a.cols_ ∧
      s.WF ∧
      (∀ i j : Nat, (i : Int) < min a.rows_ n → (j : Int) < a.cols_ →
        s.cell i j = a.cell i j) ∧
      (∀ i j : Nat, a.rows_ ≤ (i : Int) → (i : Int) < n → (j : Int) < a.cols_ →
        s.cell i j = 0) := by
    intro hn
    obtain ⟨s, hs, hsr, hsc, hswf, hent⟩ := setRows_spec hwf hC n hn
    refine ⟨s, hs, hsr, hsc, hswf, ?_, ?_⟩
    · intro i j hi hj
      rw [hent i j, if_pos ⟨hi, hj⟩]
    · intro i j hi _ _
      rw [hent i j, if_neg (by omega)]
  refine ⟨⟨?_, fun hn => ⟨_, _, setRows_nonpos a n hn⟩⟩, setRows_nonpos a n, hok⟩
  rintro ⟨e, s, h⟩
  by_contra hn
  obtain ⟨s', hs', _⟩ := hok (by omega)
  rw [hs'] at h
  cases h

/-- C14 on the `2 × 2` matrix of the tests, grown to three rows. -/
theorem setRows_resize_witness :
    test2x2.SetRows 3 = .returned ⟨3, 2, [[1, 2], [3, 4], [0, 0]]⟩ ∧
    test2x2.SetRows (-1) = .threw .InvalidDimension test2x2 ∧
    test2x2.WF ∧ 1 ≤ test2x2.rows_ ∧ 1 ≤ test2x2.cols_ ∧
    (((∃ e s, test2x2.SetRows 3 = .threw e s) ↔ (3 : Int) ≤ 0) ∧
      ((3 : Int) ≤ 0 → test2x2.SetRows 3 = .threw .InvalidDimension test2x2) ∧
      ((0 : Int) < 3 → ∃ s, test2x2.SetRows 3 = .returned s ∧ s.rows_ = 3 ∧
        s.cols_ = test2x2.cols_ ∧ s.WF ∧
        (∀ i j : Nat, (i : Int) < min test2x2.rows_ 3 → (j : Int) < test2x2.cols_ →
          s.cell i j = test2x2.cell i j) ∧
        (∀ i j : Nat, test2x2.rows_ ≤ (i : Int) → (i : Int) < 3 →
          (j : Int) < test2x2.cols_ → s.cell i j = 0))) :=
  ⟨rfl, rfl, by decide, by decide, by decide,
    setRows_resize test2x2 3 (by decide) (by decide) (by decide)⟩

/-- C15. On a well-formed matrix with a row and a column, `SetCols(c)` with `c ≥ 1`
returns a well-formed matrix with the same row count and `c` columns, in which the
entries of every row below `min(cols_, c)` are those of `a` and every entry in an added
column is zero. -/
theorem setCols_resize [Zero α] (a : S21Matrix α) (c : Int) (hwf : a.WF)
    (hR : 1 ≤ a.rows_) (_hC : 1 ≤ a.cols_) (hc : 1 ≤ c) :
    ∃ s, a.SetCols c = .returned s ∧ s.rows_ = a.rows_ ∧ s.cols_ = c ∧ s.WF ∧
      (∀ i j : Nat, (i : Int) < a.rows_ → (j : Int) < min a.cols_ c →
        s.cell i j = a.cell i j) ∧
      (∀ i j : Nat, (i : Int) < a.rows_ → a.cols_ ≤ (j : Int) → (j : Int) < c →
        s.cell i j = 0) := by
  obtain ⟨s, hs, hsr, hsc, hswf, hent⟩ := setCols_spec hwf hR c (by omega)
  refine ⟨s, hs, hsr, hsc, hswf, ?_, ?_⟩
  · intro i j hi hj
    rw [hent i j, if_pos ⟨hi, hj⟩]
  · intro i j _ hj _
    rw [hent i j, if_neg (by omega)]

/-- C15 on the `2 × 2` matrix of the tests, grown to three columns, and on the
`2 × 3` matrix, cut to two columns. -/
theorem setCols_resize_witness :
    test2x2.SetCols 3 = .returned ⟨2, 3, [[1, 2, 0], [3, 4, 0]]⟩ ∧
    test2x3.SetCols 2 = .returned ⟨2, 2, [[1, 2], [4, 5]]⟩ ∧
    test2x2.WF ∧ 1 ≤ test2x2.rows_ ∧ 1 ≤ test2x2.cols_ ∧ (1 : Int) ≤ 3 ∧
    ∃ s, test2x2.SetCols 3 = .returned s ∧ s.rows_ = test2x2.rows_ ∧ s.cols_ = 3 ∧ s.WF ∧
      (∀ i j : Nat, (i : Int) < test2x2.rows_ → (j : Int) < min test2x2.cols_ 3 →
        s.cell i j = test2x2.cell i j) ∧
      (∀ i j : Nat, (i : Int) < test2x2.rows_ → test2x2.cols_ ≤ (j : Int) →
        (j : Int) < 3 → s.cell i j = 0) :=
  ⟨rfl, rfl, by decide, by decide, by decide, by decide,
    setCols_resize test2x2 3 (by decide) (by decide) (by decide) (by decide)⟩

/-- C16. For all integers `r` and `c`, the constructor `S21Matrix(r, c)` fails exactly
when `r < 1` or `c < 1`, with `InvalidDimension`; for `r ≥ 1` and `c ≥ 1` it gives a
well-formed matrix with `r` rows and `c` columns, that is a storage of `r` rows of
`c` zeros, so every entry is `0`. -/
theorem create_dimensions [Zero α] (r c : Int) :
    (((∃ e, (create r c : Except Error (S21Matrix α)) = .error e) ↔ (r < 1 ∨ c < 1)) ∧
      ((create r c : Except Error (S21Matrix α)) = .error .InvalidDimension ↔
        (r < 1 ∨ c < 1))) ∧
    (¬ (r < 1 ∨ c < 1) →
      ∃ m : S21Matrix α, create r c = .ok m ∧ m.rows_ = r ∧ m.cols_ = c ∧ m.WF ∧
        m.matrix_ = List.replicate r.toNat (List.replicate c.toNat 0) ∧
        ∀ i j : Nat, m.cell i j = 0) := by
  by_cases h : r < 1 ∨ c < 1
  · rw [create_error h]
    exact ⟨⟨⟨fun _ => h, fun _ => ⟨_, rfl⟩⟩, ⟨fun _ => h, fun _ => rfl⟩⟩, fun h' => absurd h h'⟩
  · rw [create_ok (by omega) (by omega)]
    refine ⟨⟨⟨fun ⟨_, h'⟩ => (nomatch h'), fun h' => absurd h' h⟩,
      ⟨fun h' => (nomatch h'), fun h' => absurd h' h⟩⟩, fun _ => ⟨_, rfl, rfl, rfl, ?_, rfl, ?_⟩⟩
    · exact ⟨by show 0 ≤ r; omega, by show 0 ≤ c; omega, shape_replicate _ _ _⟩
    · intro i j
      exact entry_replicate _ _ i j

/-- C17. On a well-formed matrix and for all integers `row`, `col`: `getElement`,
`SetElement` and both `operator()` fail with `IndexOutOfRange` exactly when `row < 0`,
`row ≥ rows_`, `col < 0` or `col ≥ cols_` (`SetElement` then leaves the matrix as it
was); in range they succeed, `getElement` and `operator()` giving the stored entry.
(`getElement` is `const`: the model has no output for the matrix.) -/
theorem element_access_range [Zero α] (a : S21Matrix α) (row col : Int) (value : α)
    (hwf : a.WF) :
    (a.getElement row col = .error .IndexOutOfRange ↔
      (row < 0 ∨ row ≥ a.rows_ ∨ col < 0 ∨ col ≥ a.cols_)) ∧
    ((∃ s, a.SetElement row col value = .threw .IndexOutOfRange s) ↔
      (row < 0 ∨ row ≥ a.rows_ ∨ col < 0 ∨ col ≥ a.cols_)) ∧
    ((row < 0 ∨ row ≥ a.rows_ ∨ col < 0 ∨ col ≥ a.cols_) →
      a.SetElement row col value = .threw .IndexOutOfRange a) ∧
    (a.operatorCall row col = .error .IndexOutOfRange ↔
      (row < 0 ∨ row ≥ a.rows_ ∨ col < 0 ∨ col ≥ a.cols_)) ∧
    (a.operatorCallConst row col = .error .IndexOutOfRange ↔
      (row < 0 ∨ row ≥ a.rows_ ∨ col < 0 ∨ col ≥ a.cols_)) ∧
    (¬ (row < 0 ∨ row ≥ a.rows_ ∨ col < 0 ∨ col ≥ a.cols_) →
      a.getElement row col = .ok (a.cell row.toNat col.toNat) ∧
      a.operatorCall row col = .ok (a.cell row.toNat col.toNat) ∧
      a.operatorCallConst row col = .ok (a.cell row.toNat col.toNat) ∧
      ∃ s, a.SetElement row col value = .returned s ∧ s.rows_ = a.rows_ ∧
        s.cols_ = a.cols_ ∧ s.cell row.toNat col.toNat = value) := by
  by_cases h : row < 0 ∨ row ≥ a.rows_ ∨ col < 0 ∨ col ≥ a.cols_
  · have h1 : a.getElement row col = .error .IndexOutOfRange := by
      unfold getElement; rw [if_pos h]
    have h2 : a.SetElement row col value = .threw .IndexOutOfRange a := by
      unfold SetElement; rw [if_pos h]
    have h3 : a.operatorCall row col = .error .IndexOutOfRange := by
      unfold operatorCall; rw [if_pos h]
    have h4 : a.operatorCallConst row col = .error .IndexOutOfRange := by
      unfold operatorCallConst; rw [if_pos h]
    exact ⟨⟨fun _ => h, fun _ => h1⟩, ⟨fun _ => h, fun _ => ⟨a, h2⟩⟩, fun _ => h2,
      ⟨fun _ => h, fun _ => h3⟩, ⟨fun _ => h, fun _ => h4⟩, fun h' => absurd h h'⟩
  · have h1 := getElement_in_range hwf row col h
    have h3 : a.operatorCall row col = .ok (a.cell row.toNat col.toNat) := h1
    have h4 : a.operatorCallConst row col = .ok (a.cell row.toNat col.toNat) := h1
    obtain ⟨s, hs, hsr, hsc, _, hval, _⟩ := setElement_in_range hwf row col value h
    refine ⟨⟨?_, fun h' => absurd h' h⟩, ⟨?_, fun h' => absurd h' h⟩, fun h' => absurd h' h,
      ⟨?_, fun h' => absurd h' h⟩, ⟨?_, fun h' => absurd h' h⟩,
      fun _ => ⟨h1, h3, h4, s, hs, hsr, hsc, hval⟩⟩
    · rw [h1]; exact fun h' => (nomatch h')
    · rw [hs]; exact fun ⟨_, h'⟩ => (nomatch h')
    · rw [h3]; exact fun h' => (nomatch h')
    · rw [h4]; exact fun h' => (nomatch h')

/-- C17 on the `2 × 2` matrix of the tests, at the index `(0, 2)` of the test
`GetElementOutOfRange` and at `(1, 1)`. -/
theorem element_access_range_witness :
    test2x2.getElement 0 2 = .error .IndexOutOfRange ∧ test2x2.getElement 1 1 = .ok 4 ∧
    test2x2.SetElement 1 1 9 = .returned ⟨2, 2, [[1, 2], [3, 9]]⟩ ∧ test2x2.WF ∧
    ((test2x2.getElement 0 2 = .error .IndexOutOfRange ↔
        ((0 : Int) < 0 ∨ (0 : Int) ≥ test2x2.rows_ ∨ (2 : Int) < 0 ∨
          (2 : Int) ≥ test2x2.cols_)) ∧
      ((∃ s, test2x2.SetElement 0 2 9 = .threw .IndexOutOfRange s) ↔
        ((0 : Int) < 0 ∨ (0 : Int) ≥ test2x2.rows_ ∨ (2 : Int) < 0 ∨
          (2 : Int) ≥ test2x2.cols_)) ∧
      (((0 : Int) < 0 ∨ (0 : Int) ≥ test2x2.rows_ ∨ (2 : Int) < 0 ∨
          (2 : Int) ≥ test2x2.cols_) →
        test2x2.SetElement 0 2 9 = .threw .IndexOutOfRange test2x2) ∧
      (test2x2.operatorCall 0 2 = .error .IndexOutOfRange ↔
        ((0 : Int) < 0 ∨ (0 : Int) ≥ test2x2.rows_ ∨ (2 : Int) < 0 ∨
          (2 : Int) ≥ test2x2.cols_)) ∧
      (test2x2.operatorCallConst 0 2 = .error .IndexOutOfRange ↔
        ((0 : Int) < 0 ∨ (0 : Int) ≥ test2x2.rows_ ∨ (2 : Int) < 0 ∨
          (2 : Int) ≥ test2x2.cols_)) ∧
      (¬ ((0 : Int) < 0 ∨ (0 : Int) ≥ test2x2.rows_ ∨ (2 : Int) < 0 ∨
          (2 : Int) ≥ test2x2.cols_) →
        test2x2.getElement 0 2 = .ok (test2x2.cell (0 : Int).toNat (2 : Int).toNat) ∧
        test2x2.operatorCall 0 2 = .ok (test2x2.cell (0 : Int).toNat (2 : Int).toNat) ∧
        test2x2.operatorCallConst 0 2 =
          .ok (test2x2.cell (0 : Int).toNat (2 : Int).toNat) ∧
        ∃ s, test2x2.SetElement 0 2 9 = .returned s ∧ s.rows_ = test2x2.rows_ ∧
          s.cols_ = test2x2.cols_ ∧ s.cell (0 : Int).toNat (2 : Int).toNat = 9)) :=
  ⟨rfl, rfl, rfl, by decide, element_access_range test2x2 0 2 9 (by decide)⟩

/-- C19. On well-formed operands, `SumMatrix` and `SubMatrix` fail exactly when
`a.rows_ ≠ b.rows_` or `a.cols_ ≠ b.cols_`, with `DimensionMismatch` (and leave `a` as it
was); otherwise they return, `a` keeps its dimensions and every entry becomes
`a[i][j] + b[i][j]`, respectively `a[i][j] - b[i][j]`. (`other` is a `const` reference:
the model has no output for it.) -/
theorem sumMatrix_subMatrix [Ring α] (a b : S21Matrix α) (ha : a.WF) (hb : b.WF) :
    (((∃ e s, a.SumMatrix b = .threw e s) ↔ (a.rows_ ≠ b.rows_ ∨ a.cols_ ≠ b.cols_)) ∧
      ((∃ e s, a.SubMatrix b = .threw e s) ↔ (a.rows_ ≠ b.rows_ ∨ a.cols_ ≠ b.cols_))) ∧
    ((a.rows_ ≠ b.rows_ ∨ a.cols_ ≠ b.cols_) →
      a.SumMatrix b = .threw .DimensionMismatch a ∧
      a.SubMatrix b = .threw .DimensionMismatch a) ∧
    (¬ (a.rows_ ≠ b.rows_ ∨ a.cols_ ≠ b.cols_) →
      (∃ s, a.SumMatrix b = .returned s ∧ s.rows_ = a.rows_ ∧ s.cols_ = a.cols_ ∧ s.WF ∧
        ∀ i j : Nat, (i : Int) < a.rows_ → (j : Int) < a.cols_ →
          s.cell i j = a.cell i j + b.cell i j) ∧
      (∃ s, a.SubMatrix b = .returned s ∧ s.rows_ = a.rows_ ∧ s.cols_ = a.cols_ ∧ s.WF ∧
        ∀ i j : Nat, (i : Int) < a.rows_ → (j : Int) < a.cols_ →
          s.cell i j = a.cell i j - b.cell i j)) := by
  by_cases hdim : a.rows_ ≠ b.rows_ ∨ a.cols_ ≠ b.cols_
  · have h1 := sumMatrix_mismatch a b hdim
    have h2 := subMatrix_mismatch a b hdim
    exact ⟨⟨⟨fun _ => hdim, fun _ => ⟨_, _, h1⟩⟩, ⟨fun _ => hdim, fun _ => ⟨_, _, h2⟩⟩⟩,
      fun _ => ⟨h1, h2⟩, fun h => absurd hdim h⟩
  · have hr : a.rows_ = b.rows_ := by
      by_contra h; exact hdim (Or.inl h)
    have hc : a.cols_ = b.cols_ := by
      by_contra h; exact hdim (Or.inr h)
    obtain ⟨s1, hs1, h1⟩ := sumMatrix_spec ha hb hr hc
    obtain ⟨s2, hs2, h2⟩ := subMatrix_spec ha hb hr hc
    refine ⟨⟨⟨?_, fun h => absurd h hdim⟩, ⟨?_, fun h => absurd h hdim⟩⟩,
      fun h => absurd h hdim, fun _ => ⟨⟨s1, hs1, h1⟩, ⟨s2, hs2, h2⟩⟩⟩
    · rw [hs1]; exact fun ⟨_, _, h⟩ => (nomatch h)
    · rw [hs2]; exact fun ⟨_, _, h⟩ => (nomatch h)

/-- C19 on the operands of the tests `SumMatrix` and `SubMatrix`. -/
theorem sumMatrix_subMatrix_witness :
    testSumLeft.SumMatrix testSumRight = .returned ⟨2, 2, [[4, 6], [0, 0]]⟩ ∧
    testSumLeft.SubMatrix testSumRight = .returned ⟨2, 2, [[-2, -2], [0, 0]]⟩ ∧
    testSumLeft.SumMatrix test2x3 = .threw .DimensionMismatch testSumLeft ∧
    testSumLeft.WF ∧ testSumRight.WF ∧
    ((((∃ e s, testSumLeft.SumMatrix testSumRight = .threw e s) ↔
          (testSumLeft.rows_ ≠ testSumRight.rows_ ∨
            testSumLeft.cols_ ≠ testSumRight.cols_)) ∧
        ((∃ e s, testSumLeft.SubMatrix testSumRight = .threw e s) ↔
          (testSumLeft.rows_ ≠ testSumRight.rows_ ∨
            testSumLeft.cols_ ≠ testSumRight.cols_))) ∧
      ((testSumLeft.rows_ ≠ testSumRight.rows_ ∨ testSumLeft.cols_ ≠ testSumRight.cols_) →
        testSumLeft.SumMatrix testSumRight = .threw .DimensionMismatch testSumLeft ∧
        testSumLeft.SubMatrix testSumRight = .threw .DimensionMismatch testSumLeft) ∧
      (¬ (testSumLeft.rows_ ≠ testSumRight.rows_ ∨
          testSumLeft.cols_ ≠ testSumRight.cols_) →
        (∃ s, testSumLeft.SumMatrix testSumRight = .returned s ∧
          s.rows_ = testSumLeft.rows_ ∧ s.cols_ = testSumLeft.cols_ ∧ s.WF ∧
          ∀ i j : Nat, (i : Int) < testSumLeft.rows_ → (j : Int) < testSumLeft.cols_ →
            s.cell i j = testSumLeft.cell i j + testSumRight.cell i j) ∧
        (∃ s, testSumLeft.SubMatrix testSumRight = .returned s ∧
          s.rows_ = testSumLeft.rows_ ∧ s.cols_ = testSumLeft.cols_ ∧ s.WF ∧
          ∀ i j : Nat, (i : Int) < testSumLeft.rows_ → (j : Int) < testSumLeft.cols_ →
            s.cell i j = testSumLeft.cell i j - testSumRight.cell i j))) :=
  ⟨rfl, rfl, rfl, by decide, by decide,
    sumMatrix_subMatrix testSumLeft testSumRight (by decide) (by decide)⟩

/-- C20. On a well-formed matrix with a row and a column, `Transpose` returns a
well-formed matrix with `a.cols_` rows and `a.rows_` columns such that
`result[j][i] = a[i][j]` for all `i < a.rows_` and `j < a.cols_`. (The model of
`Transpose` has no output but the result: the C++ member assigns to no field of `a`.) -/
theorem transpose_entries [Zero α] (a : S21Matrix α) (hwf : a.WF) (hR : 1 ≤ a.rows_)
    (hC : 1 ≤ a.cols_) :
    ∃ t, a.Transpose = .ok t ∧ t.rows_ = a.cols_ ∧ t.cols_ = a.rows_ ∧ t.WF ∧
      ∀ i j : Nat, (i : Int) < a.rows_ → (j : Int) < a.cols_ → t.cell j i = a.cell i j :=
  transpose_spec hwf hR hC

/-- C20 on the matrix of the test: `Transpose([[1,2,3],[4,5,6]]) = [[1,4],[2,5],[3,6]]`. -/
theorem transpose_entries_witness :
    test2x3.Transpose = .ok ⟨3, 2, [[1, 4], [2, 5], [3, 6]]⟩ ∧
    test2x3.WF ∧ 1 ≤ test2x3.rows_ ∧ 1 ≤ test2x3.cols_ ∧
    ∃ t, test2x3.Transpose = .ok t ∧ t.rows_ = test2x3.cols_ ∧ t.cols_ = test2x3.rows_ ∧
      t.WF ∧
      ∀ i j : Nat, (i : Int) < test2x3.rows_ → (j : Int) < test2x3.cols_ →
        t.cell j i = test2x3.cell i j :=
  ⟨rfl, by decide, by decide, by decide,
    transpose_entries test2x3 (by decide) (by decide) (by decide)⟩

/-- C24. A matrix without rows and columns (the default-constructed one) is given no
dimensions by the resize operations: `SetRows(n)` fails for every `n`,
`SetDimensions(r, c)` fails for all `r` and `c`, `SetCols(c)` fails for every `c ≠ 0`
and `SetCols(0)` returns without a change; after each of these calls the matrix is the
one it was. -/
theorem resize_empty [Zero α] (a : S21Matrix α) (hr : a.rows_ = 0) (hc : a.cols_ = 0) :
    (∀ n : Int, a.SetRows n = .threw .InvalidDimension a) ∧
    (∀ r c : Int, a.SetDimensions r c = .threw .InvalidDimension a) ∧
    (∀ c : Int, c ≠ 0 → a.SetCols c = .threw .InvalidDimension a) ∧
    a.SetCols 0 = .returned a := by
  have hrows : ∀ n : Int, a.SetRows n = .threw .InvalidDimension a := by
    intro n
    by_cases hn : n ≤ 0
    · exact setRows_nonpos a n hn
    · unfold SetRows
      rw [if_neg hn, if_pos (by omega), create_error (Or.inr (by omega))]
      rfl
  refine ⟨hrows, ?_, ?_, ?_⟩
  · intro r c
    unfold SetDimensions
    rw [hrows r]
  · intro c hc0
    by_cases hneg : c < 0
    · exact setCols_neg a c hneg
    · unfold SetCols
      rw [if_neg hneg, if_pos (by omega), create_error (Or.inl (by omega))]
      rfl
  · unfold SetCols
    rw [if_neg (by omega), if_neg (by rw [hc]; exact fun h => h rfl)]

/-- C24 on the default-constructed matrix. -/
theorem resize_empty_witness :
    (empty : S21Matrix ℤ).rows_ = 0 ∧ (empty : S21Matrix ℤ).cols_ = 0 ∧
    ((∀ n : Int, (empty : S21Matrix ℤ).SetRows n = .threw .InvalidDimension empty) ∧
      (∀ r c : Int,
        (empty : S21Matrix ℤ).SetDimensions r c = .threw .InvalidDimension empty) ∧
      (∀ c : Int, c ≠ 0 →
        (empty : S21Matrix ℤ).SetCols c = .threw .InvalidDimension empty) ∧
      (empty : S21Matrix ℤ).SetCols 0 = .returned empty) :=
  ⟨rfl, rfl, resize_empty empty rfl rfl⟩

/-- C22. With entries in a commutative ring, on a well-formed square `n × n` matrix with
`n ≥ 1`, `Determinant` returns the determinant of the Leibniz formula: the sum over all
permutations `σ` of `sign σ` times the product of the `a[i][σ i]`, which is the
determinant `Matrix.det` of Mathlib. -/
theorem determinant_leibniz [CommRing α] (a : S21Matrix α) (n : Nat) (hwf : a.WF)
    (hr : a.rows_ = n) (hc : a.cols_ = n) (hn : 1 ≤ n) :
    a.Determinant =
        .ok (∑ σ : Equiv.Perm (Fin n), Equiv.Perm.sign σ • ∏ i : Fin n, a.cell i (σ i)) ∧
      a.Determinant = .ok (Matrix.det (toMatrix n a)) := by
  obtain ⟨m, rfl⟩ : ∃ m, n = m + 1 := ⟨n - 1, by omega⟩
  have hdet : a.Determinant = .ok (Matrix.det (toMatrix (m + 1) a)) := by
    rw [determinant_square_eq a (by rw [hr, hc])]
    exact determinantRecursive_eq_det m a hwf hr hc
  refine ⟨?_, hdet⟩
  rw [hdet, ← Matrix.det_transpose, Matrix.det_apply]
  rfl

/-- C22 on the `3 × 3` matrix of the tests, whose determinant is `-306`. -/
theorem determinant_leibniz_witness :
    test3x3.Determinant = .ok (-306) ∧ test3x3.WF ∧
    (test3x3.Determinant =
        .ok (∑ σ : Equiv.Perm (Fin 3),
          Equiv.Perm.sign σ • ∏ i : Fin 3, test3x3.cell i (σ i)) ∧
      test3x3.Determinant = .ok (Matrix.det (toMatrix 3 test3x3))) :=
  ⟨rfl, by decide, determinant_leibniz test3x3 3 (by decide) rfl rfl (by decide)⟩

/-- C23. With entries in a field, on a well-formed square `n × n` matrix with `n ≥ 2`
whose `Determinant` is not `0`, `InverseMatrix` succeeds and its result is a two-sided
inverse: `MulMatrix(a, InverseMatrix(a))` and `MulMatrix(InverseMatrix(a), a)` both
succeed and leave the `n × n` identity matrix. -/
theorem inverseMatrix_two_sided [Field α] [DecidableEq α] (a : S21Matrix α) (n : Nat)
    (d : α) (hwf : a.WF) (hr : a.rows_ = n) (hc : a.cols_ = n) (hn : 2 ≤ n)
    (hd : a.Determinant = .ok d) (hd0 : d ≠ 0) :
    ∃ x, a.InverseMatrix = .ok x ∧ a.MulMatrix x = .ok (identity n) ∧
      x.MulMatrix a = .ok (identity n) := by
  obtain ⟨m, rfl⟩ : ∃ m, n = m + 2 := ⟨n - 2, by omega⟩
  have hdet : a.Determinant = .ok (Matrix.det (toMatrix (m + 2) a)) := by
    rw [determinant_square_eq a (by rw [hr, hc])]
    exact determinantRecursive_eq_det (m + 1) a hwf hr hc
  have hdd : d = Matrix.det (toMatrix (m + 2) a) := by
    rw [hd] at hdet
    exact Except.ok.inj hdet
  have hne : Matrix.det (toMatrix (m + 2) a) ≠ 0 := by
    rw [← hdd]; exact hd0
  obtain ⟨x, hx, hxr, hxc, hxwf, hxm⟩ := inverseMatrix_toMatrix hwf m hr hc hne
  obtain ⟨p, hp, hpr, hpc, hpwf, hpm⟩ :=
    mulMatrix_toMatrix hwf hxwf (m + 2) (by omega) hr hc hxr hxc
  obtain ⟨q, hq, hqr, hqc, hqwf, hqm⟩ :=
    mulMatrix_toMatrix hxwf hwf (m + 2) (by omega) hxr hxc hr hc
  have hp1 : toMatrix (m + 2) p = 1 := by
    rw [hpm, hxm, Matrix.mul_smul, Matrix.mul_adjugate, smul_smul, one_div,
      inv_mul_cancel₀ hne, one_smul]
  have hq1 : toMatrix (m + 2) q = 1 := by
    rw [hqm, hxm, Matrix.smul_mul, Matrix.adjugate_mul, smul_smul, one_div,
      inv_mul_cancel₀ hne, one_smul]
  refine ⟨x, hx, ?_, ?_⟩
  · rw [hp, eq_identity_of_toMatrix hpwf (m + 2) hpr hpc hp1]
  · rw [hq, eq_identity_of_toMatrix hqwf (m + 2) hqr hqc hq1]

/-- C23 on the matrix `[[4,7],[2,6]]` of the test `InverseMatrix`. -/
theorem inverseMatrix_two_sided_witness :
    testInv.WF ∧ testInv.Determinant = .ok 10 ∧ (10 : ℚ) ≠ 0 ∧
    ∃ x, testInv.InverseMatrix = .ok x ∧ testInv.MulMatrix x = .ok (identity 2) ∧
      x.MulMatrix testInv = .ok (identity 2) :=
  ⟨by decide, by with_unfolding_all rfl, by norm_num,
    inverseMatrix_two_sided testInv 2 10 (by decide) rfl rfl (by decide)
      (by with_unfolding_all rfl) (by norm_num)⟩

/-- C21. Every matrix reachable from the default or the dimensioned constructor by the
public operations (copy, move, `SetRows`, `SetCols`, `SetDimensions`, `SetElement`,
`SumMatrix`, `SubMatrix`, `MulNumber`, `MulMatrix`, `Transpose`, `CalcComplements`,
`InverseMatrix`), whether they return or throw, has a storage of exactly `rows_` rows,
each of length `cols_`, and is the empty matrix (`rows_ = cols_ = 0`, no storage) or has
`rows_ ≥ 1` and `cols_ ≥ 1`. -/
theorem reachable_invariant [Field α] [DecidableEq α] (m : S21Matrix α)
    (h : Reachable m) :
    (m.matrix_.length : Int) = m.rows_ ∧
    (∀ row ∈ m.matrix_, (row.length : Int) = m.cols_) ∧
    ((m.rows_ = 0 ∧ m.cols_ = 0 ∧ m.matrix_ = []) ∨ (1 ≤ m.rows_ ∧ 1 ≤ m.cols_)) := by
  obtain ⟨⟨h1, h2, hlen, hrows⟩, hdis⟩ := h.invariant
  refine ⟨by omega, ?_, hdis⟩
  intro row hrow
  have := hrows row hrow
  omega

/-- C21 on the matrix that the failing call `SetDimensions(3, -1)` leaves of
`S21Matrix(2, 2)`. -/
theorem reachable_invariant_witness :
    Reachable zero3x2 ∧
    ((zero3x2.matrix_.length : Int) = zero3x2.rows_ ∧
      (∀ row ∈ zero3x2.matrix_, (row.length : Int) = zero3x2.cols_) ∧
      ((zero3x2.rows_ = 0 ∧ zero3x2.cols_ = 0 ∧ zero3x2.matrix_ = []) ∨
        (1 ≤ zero3x2.rows_ ∧ 1 ≤ zero3x2.cols_))) := by
  have hcreate : (create 2 2 : Except Error (S21Matrix ℚ)) = .ok zero2x2 := by
    with_unfolding_all rfl
  have hleft : (zero2x2.SetDimensions 3 (-1)).left = zero3x2 := by
    with_unfolding_all rfl
  have hreach : Reachable zero3x2 := by
    rw [← hleft]
    exact Reachable.setDimensions zero2x2 3 (-1) (Reachable.dimensioned 2 2 zero2x2 hcreate)
  exact ⟨hreach, reachable_invariant zero3x2 hreach⟩

end S21Matrix
